import Mathlib

/-! # Partition 1008 repair tool: device-list codec and repair transform

A shallow embedding of `fix_partition_1008.c`.

* A byte (`unsigned char`) is a `Fin 256`; a buffer is a `List Byte`, and a
  pointer `blob + pos` is the suffix `blob.drop pos`.
* Offsets, lengths and counters (`size_t`, `int`, `uint32_t`) are natural
  numbers.  A blob comes from `sqlite3_column_bytes`, so its length is below
  `2 ^ 31` and none of the sums formed by the code wraps.
* A read through a pointer returns `Option`: `none` stands for an access
  outside the buffer.
* `char device_name[256]` is represented by the C string it holds, that is
  the bytes in front of the first NUL.
-/

namespace Partition1008

/-- One `unsigned char`. -/
abbrev Byte := Fin 256

/-! ## Constants -/

/-- The bytes `00 0F "NATIVE_SELECTED"`. -/
def PATTERN_NATIVE_SELECTED : List Byte :=
  [0x00, 0x0f, 0x4E, 0x41, 0x54, 0x49, 0x56, 0x45, 0x5F, 0x53, 0x45, 0x4C, 0x45, 0x43, 0x54,
   0x45, 0x44]

/-- The bytes `00 13 "DISCLAIMER_ACCEPTED"`. -/
def PATTERN_DISCLAIMER_ACCEPTED : List Byte :=
  [0x00, 0x13, 0x44, 0x49, 0x53, 0x43, 0x4C, 0x41, 0x49, 0x4D, 0x45, 0x52, 0x5F, 0x41, 0x43,
   0x43, 0x45, 0x50, 0x54, 0x45, 0x44]

def PATTERN_NATIVE_LEN : Nat := 17

def PATTERN_DISCLAIMER_LEN : Nat := 21

/-- The C string `"unknown"`. -/
def unknown_name : List Byte := [0x75, 0x6E, 0x6B, 0x6E, 0x6F, 0x77, 0x6E]

/-- Command line switches, `args_t` without the database path. -/
structure args_t where
  list_only : Bool
  dry_run : Bool
  do_fix : Bool
  no_backup : Bool
  deriving DecidableEq

/-- An entry of the `issues` and `parsed_devices` arrays. -/
structure device_issue_t where
  position : Nat
  device_name : List Byte
  deriving DecidableEq

/-! ## Checksum -/

/-- One shift of the reflected CRC register (polynomial `0xEDB88320`). -/
def crc32_bit (c : Nat) : Nat :=
  if c % 2 = 1 then (c >>> 1) ^^^ 0xEDB88320 else c >>> 1

/-- Feeding one byte into the CRC register. -/
def crc32_byte (c : Nat) (b : Byte) : Nat :=
  crc32_bit (crc32_bit (crc32_bit (crc32_bit (crc32_bit (crc32_bit (crc32_bit
    (crc32_bit (c ^^^ b.val))))))))

/-- Modelled from the spec: `crc32` of zlib, which is linked in and not part of
the repository; the classical CRC32 with reflected polynomial `0xEDB88320`,
register preset to and finally inverted with `0xFFFFFFFF`. -/
def crc32 (crc : Nat) (data : List Byte) : Nat :=
  (data.foldl crc32_byte (crc ^^^ 0xFFFFFFFF)) ^^^ 0xFFFFFFFF

/-- `calculate_crc32(data, len)`: the buffer `data` holds the `len` bytes. -/
def calculate_crc32 (data : List Byte) : Nat :=
  crc32 0 data

/-! ## Big-endian readers and writers -/

/-- `read_be64(buf)`; `none` when fewer than eight bytes are there. -/
def read_be64 (buf : List Byte) : Option Nat :=
  match buf with
  | b0 :: b1 :: b2 :: b3 :: b4 :: b5 :: b6 :: b7 :: _ =>
    some ((b0.val <<< 56) ||| (b1.val <<< 48) ||| (b2.val <<< 40) ||| (b3.val <<< 32) |||
          (b4.val <<< 24) ||| (b5.val <<< 16) ||| (b6.val <<< 8) ||| b7.val)
  | _ => none

/-- The eight bytes `write_be64` stores for `val`. -/
def be64_bytes (val : Nat) : List Byte :=
  [Fin.ofNat ((val >>> 56) &&& 0xff), Fin.ofNat ((val >>> 48) &&& 0xff),
   Fin.ofNat ((val >>> 40) &&& 0xff), Fin.ofNat ((val >>> 32) &&& 0xff),
   Fin.ofNat ((val >>> 24) &&& 0xff), Fin.ofNat ((val >>> 16) &&& 0xff),
   Fin.ofNat ((val >>> 8) &&& 0xff), Fin.ofNat (val &&& 0xff)]

/-- `write_be64(buf, val)`: the buffer afterwards; `buf[0..8]` is overwritten. -/
def write_be64 (buf : List Byte) (val : Nat) : List Byte :=
  be64_bytes val ++ buf.drop 8

/-- `read_be16(blob + offset)`. -/
def read_be16 (blob : List Byte) (offset : Nat) : Option Nat :=
  match blob[offset]?, blob[offset + 1]? with
  | some b0, some b1 => some ((b0.val <<< 8) ||| b1.val)
  | _, _ => none

/-- `read_be32(blob + offset)`. -/
def read_be32 (blob : List Byte) (offset : Nat) : Option Nat :=
  match blob[offset]?, blob[offset + 1]?, blob[offset + 2]?, blob[offset + 3]? with
  | some b0, some b1, some b2, some b3 =>
    some ((b0.val <<< 24) ||| (b1.val <<< 16) ||| (b2.val <<< 8) ||| b3.val)
  | _, _, _, _ => none

/-! ## Strings -/

/-- The C string held by a buffer: the bytes in front of the first NUL. -/
def c_string (buf : List Byte) : List Byte :=
  buf.takeWhile (fun b => b != 0)

/-! ## `parse_device_names` -/

/-- What one pass through the body of the parser loop does: leave the loop
(`stop`, with `overread` set when a read outside the blob was made on the way),
or complete the record and go on at the next offset. -/
inductive record_step where
  | stop (overread : Bool)
  | next (d : device_issue_t) (offset : Nat)
  deriving DecidableEq

/-- The second half of the loop body, from `devices[parsed].position = offset`
on: `userAcceptState`, the two booleans, `lastmode` and `lastConnectionType`
are skipped, and `parsed++` completes the record. -/
def parse_tail (blob : List Byte) (device_name : List Byte) (offset : Nat) : record_step :=
  let blob_len := blob.length
  -- Store userAcceptState position
  let position := offset
  if offset + 2 > blob_len then .stop false else
  match read_be16 blob offset with
  | none => .stop true
  | some str_len =>
  let offset := offset + 2 + str_len
  if offset > blob_len then .stop false else
  -- Skip rest of device data
  let offset := offset + (1 + 1 + 4)
  if offset + 2 > blob_len then .stop false else
  match read_be16 blob offset with
  | none => .stop true
  | some str_len => .next ⟨position, device_name⟩ (offset + 2 + str_len)

/-- The body of the `for` loop of `parse_device_names` for the record that
starts at `offset`.  Every read is an `Option`; where it is `none` the pass
ends with `stop true`.  The read of the `smartphoneType` length is the one the
source does not guard with `offset + 2 > blob_len`: there the source goes on
with whatever it read, adds at least 2 to an offset that is at least
`blob_len - 1`, and leaves the loop at the very next test, `offset + 1 > blob_len`. -/
def parse_record (blob : List Byte) (offset : Nat) : record_step :=
  let blob_len := blob.length
  if offset + 2 > blob_len then .stop false else
  -- Skip deviceUniqueId
  match read_be16 blob offset with
  | none => .stop true
  | some str_len =>
  let offset := offset + 2 + str_len
  if offset > blob_len then .stop false else
  -- Skip smartphoneType
  match read_be16 blob offset with
  | none => .stop true
  | some str_len =>
  let offset := offset + 2 + str_len
  if offset + 1 > blob_len then .stop false else
  -- Read name
  match blob[offset]? with
  | none => .stop true
  | some flag =>
  let has_name := flag != 0
  let offset := offset + 1
  if has_name then
    if offset + 2 > blob_len then .stop false else
    match read_be16 blob offset with
    | none => .stop true
    | some str_len =>
    let offset := offset + 2
    if offset + str_len > blob_len then .stop false else
    -- Copy device name
    let copy_len := if str_len < 255 then str_len else 255
    let device_name := c_string ((blob.drop offset).take copy_len)
    parse_tail blob device_name (offset + str_len)
  else
    parse_tail blob unknown_name offset

/-- What `parse_device_names` leaves behind: the entries `devices[0..parsed)`
(the return value `parsed` is their number) and whether a read outside the blob
was made. -/
structure parse_result where
  devices : List device_issue_t
  overread : Bool
  deriving DecidableEq

/-- The `for` loop of `parse_device_names`.  `i` and `parsed` advance together,
so the loop test `i < device_count && parsed < max_devices` leaves
`min device_count max_devices - parsed` passes; the first argument counts them
down. -/
def parse_loop (blob : List Byte) : Nat → Nat → List device_issue_t → parse_result
  | 0, _, devices => ⟨devices, false⟩
  | n + 1, offset, devices =>
    match parse_record blob offset with
    | .stop overread => ⟨devices, overread⟩
    | .next d offset' => parse_loop blob n offset' (devices ++ [d])

/-- `parse_device_names(blob, blob_len, devices, max_devices)`. -/
def parse_device_names (blob : List Byte) (max_devices : Nat) : parse_result :=
  if blob.length < 16 then ⟨[], false⟩ else
  match read_be32 blob 12 with
  | none => ⟨[], true⟩
  | some device_count => parse_loop blob (min device_count max_devices) 16 []

/-! ## `find_issues` -/

/-- The inner loop of `find_issues`: the name copied into the issue found at
`pos`, `"unknown"` unless an entry of `parsed_devices` has that position. -/
def matching_name (parsed_devices : List device_issue_t) (pos : Nat) : List Byte :=
  match parsed_devices.find? (fun d => d.position == pos) with
  | some d => d.device_name
  | none => unknown_name

/-- `memcmp(blob + pos, PATTERN_NATIVE_SELECTED, PATTERN_NATIVE_LEN) == 0`, for
`pos + PATTERN_NATIVE_LEN <= blob_len`. -/
def pattern_at (blob : List Byte) (pos : Nat) : Bool :=
  (blob.drop pos).take PATTERN_NATIVE_LEN == PATTERN_NATIVE_SELECTED

/-- The scanning loop of `find_issues` from `pos` on with `count` issues
recorded so far; the entries it appends to `issues`.  The first argument bounds
the number of passes; `blob_len` passes are enough (`find_loop_eq`). -/
def find_loop (blob : List Byte) (parsed_devices : List device_issue_t) (max_issues : Nat) :
    Nat → Nat → Nat → List device_issue_t
  | 0, _, _ => []
  | fuel + 1, pos, count =>
    if pos + PATTERN_NATIVE_LEN ≤ blob.length ∧ count < max_issues then
      if pattern_at blob pos then
        ⟨pos, matching_name parsed_devices pos⟩ ::
          find_loop blob parsed_devices max_issues fuel (pos + 1) (count + 1)
      else find_loop blob parsed_devices max_issues fuel (pos + 1) count
    else []

/-- `find_issues(blob, blob_len, issues, max_issues)`: the entries
`issues[0..count)`; the return value is their number. -/
def find_issues (blob : List Byte) (max_issues : Nat) : List device_issue_t :=
  let parsed_devices := (parse_device_names blob 32).devices
  find_loop blob parsed_devices max_issues blob.length 0 0

/-! ## `fix_database` -/

/-- The `for` loop that sets `at_issue`. -/
def at_issue (issues : List device_issue_t) (read_pos : Nat) : Bool :=
  issues.any (fun d => read_pos == d.position)

/-- The `while (read_pos < blob_len)` loop of `fix_database`: the bytes it
stores into `new_blob` from `read_pos` on, in the order of `write_pos`.  The
first argument bounds the number of passes; `blob_len - read_pos` passes are
enough (`copy_loop_fuel`). -/
def copy_loop (blob_copy : List Byte) (issues : List device_issue_t) : Nat → Nat → List Byte
  | 0, _ => []
  | fuel + 1, read_pos =>
    if h : read_pos < blob_copy.length then
      if at_issue issues read_pos then
        PATTERN_DISCLAIMER_ACCEPTED ++
          copy_loop blob_copy issues fuel (read_pos + PATTERN_NATIVE_LEN)
      else blob_copy[read_pos] :: copy_loop blob_copy issues fuel (read_pos + 1)
    else []

/-- The size computed for `new_blob`. -/
def new_blob_len (blob_len issue_count : Nat) : Nat :=
  blob_len + issue_count * (PATTERN_DISCLAIMER_LEN - PATTERN_NATIVE_LEN)

/-- Lines 360 to 390 of `fix_database`: the replacement buffer, built from the
copy of the blob and the issues, with its header rewritten.  `new_blob` is the
run of bytes the copy loop has written; it fills the `new_blob_len` bytes
allocated (`copy_loop_length`). -/
def build_new_blob (blob_copy : List Byte) (issues : List device_issue_t) : List Byte :=
  let len := new_blob_len blob_copy.length issues.length
  let new_blob := copy_loop blob_copy issues blob_copy.length 0
  let new_crc32 := calculate_crc32 ((new_blob.drop 8).take (len - 8))
  write_be64 new_blob new_crc32

/-- What the collaborators of one run answer: the database calls in front of
the load, the row `(partition, key)` if there is one, the backup command and
the two steps of the update. -/
structure storage where
  open_ok : Bool
  partition_found : Bool
  select_ok : Bool
  row : Option (List Byte)
  backup_ok : Bool
  prepare_ok : Bool
  update_ok : Bool
  deriving DecidableEq

/-- What a run of `fix_database` does: its return value, the replacement buffer
if one was built, and the value bound to the `UPDATE` statement if that
statement was run successfully. -/
structure outcome where
  exit_code : Nat
  new_blob : Option (List Byte)
  stored : Option (List Byte)
  deriving DecidableEq

/-- `fix_database(args)`. -/
def fix_database (args : args_t) (db : storage) : outcome :=
  if !db.open_ok then ⟨1, none, none⟩ else
  if !db.partition_found then ⟨1, none, none⟩ else
  if !db.select_ok then ⟨1, none, none⟩ else
  match db.row with
  | none => ⟨0, none, none⟩
  | some value_blob =>
  let blob_len := value_blob.length
  if blob_len < 8 then ⟨1, none, none⟩ else
  -- the checksum comparison only selects a message
  let blob_copy := value_blob
  let issues := find_issues blob_copy 32
  let issue_count := issues.length
  if issue_count = 0 then ⟨0, none, none⟩ else
  if args.list_only then ⟨issue_count, none, none⟩ else
  let new_blob := build_new_blob blob_copy issues
  if args.dry_run then ⟨0, some new_blob, none⟩ else
  if !args.do_fix then ⟨1, some new_blob, none⟩ else
  if !args.no_backup && !db.backup_ok then ⟨1, some new_blob, none⟩ else
  if !db.prepare_ok then ⟨1, some new_blob, none⟩ else
  if !db.update_ok then ⟨1, some new_blob, none⟩ else
  ⟨0, some new_blob, some new_blob⟩

/-! ## The occurrence set and the repair as a function -/

/-- The occurrence set of the spec with its lower bound as a parameter: every
index `i` with `lo <= i <= L - 17` at which the 17 sentinel bytes stand, in
ascending order. -/
def occurrences_from (lo : Nat) (blob : List Byte) : List Nat :=
  (List.range' lo (blob.length + 1 - PATTERN_NATIVE_LEN - lo)).filter (pattern_at blob)

/-- Every offset at which the sentinel occurs in the blob, in ascending order. -/
def occurrences (blob : List Byte) : List Nat :=
  occurrences_from 0 blob

/-- The switches of a run started with `--fix` alone. -/
def fix_mode : args_t := ⟨false, false, true, false⟩

/-- A database that holds `B` in the row of the device list and in which every
call succeeds, the backup command included. -/
def database (B : List Byte) : storage := ⟨true, true, true, some B, true, true, true⟩

/-- The device list held by the database after a run in fix mode: the value
bound to the `UPDATE`, or `B` itself when the run stores nothing. -/
def repair (B : List Byte) : List Byte :=
  match (fix_database fix_mode (database B)).stored with
  | some B' => B'
  | none => B

/-- The buffers of an outcome, where there are any, are `X`. -/
def built_from (X : List Byte) (o : outcome) : Prop :=
  (o.new_blob = none ∨ o.new_blob = some X) ∧ (o.stored = none ∨ o.stored = some X)

/-! ## The blob layout of the specification -/

/-- A length-prefixed string that starts at offset `o`: the offset behind it,
`none` if the two length bytes or the declared bytes overrun the blob. -/
def skip_string (B : List Byte) (o : Nat) : Option Nat :=
  match read_be16 B o with
  | some k => if o + 2 + k ≤ B.length then some (o + 2 + k) else none
  | none => none

/-- The offset of the `hasName` byte of the device record that starts at offset
`o`: behind `deviceUniqueId` and `smartphoneType`. -/
def has_name_offset (B : List Byte) (o : Nat) : Option Nat :=
  (skip_string B o).bind fun o1 =>
  (skip_string B o1).bind fun o2 =>
  if o2 < B.length then some o2 else none

/-- The offset of the `userAcceptState` field of the device record that starts
at offset `o`: behind the `hasName` byte and, if that is non-zero, `name`. -/
def accept_state_offset (B : List Byte) (o : Nat) : Option Nat :=
  (has_name_offset B o).bind fun o2 =>
  (B[o2]?).bind fun flag =>
  if flag = 0 then some (o2 + 1) else skip_string B (o2 + 1)

/-- The offset of the `lastConnectionType` field of the device record that
starts at offset `o`: behind `userAcceptState`, the two booleans and
`lastMode`; `none` unless the two length bytes of the field are in the blob. -/
def connection_type_offset (B : List Byte) (o : Nat) : Option Nat :=
  (accept_state_offset B o).bind fun o3 =>
  (skip_string B o3).bind fun o4 =>
  if o4 + 8 ≤ B.length then some (o4 + 6) else none

/-- The offset behind the device record that starts at offset `o`; `none` if
any field of the record overruns the blob. -/
def record_end (B : List Byte) (o : Nat) : Option Nat :=
  (connection_type_offset B o).bind (skip_string B)

/-- The name reported for the device record that starts at offset `o`:
`"unknown"` if `hasName` is zero, else the bytes of `name`, at most 255 of them,
as a C string. -/
def reported_name (B : List Byte) (o : Nat) : List Byte :=
  match has_name_offset B o with
  | none => unknown_name
  | some o2 =>
    if B[o2]? = some 0 then unknown_name
    else c_string ((B.drop (o2 + 3)).take (min ((read_be16 B (o2 + 1)).getD 0) 255))

/-- The parser reads outside the blob in the record that starts at offset `o`:
`deviceUniqueId` fits, and fewer than two bytes are left behind it for the
length of `smartphoneType`. -/
def overread_at (B : List Byte) (o : Nat) : Bool :=
  match skip_string B o with
  | some o1 => decide (B.length < o1 + 2)
  | none => false

/-- The offset behind `n` consecutive device records, the first at offset `o`. -/
def records_end (B : List Byte) : Nat → Nat → Option Nat
  | 0, o => some o
  | n + 1, o => (record_end B o).bind (records_end B n)

/-- A well-formed blob: at least 16 bytes, the header equal to the CRC32 of the
bytes behind it, schema version 3, and the device count `N` followed by exactly
`N` device records that fill the remaining `L - 16` bytes. -/
def well_formed (B : List Byte) : Prop :=
  16 ≤ B.length ∧ read_be64 B = some (calculate_crc32 (B.drop 8)) ∧
    read_be32 B 8 = some 3 ∧
    (read_be32 B 12).bind (fun N => records_end B N 16) = some B.length

/-- The entries the layout prescribes for `n` consecutive device records, the
first at offset `o`: for each record the offset of its `userAcceptState` field
and its reported name; the list ends at the first record that overruns. -/
def record_devices (B : List Byte) : Nat → Nat → List device_issue_t
  | 0, _ => []
  | n + 1, o =>
    match accept_state_offset B o, record_end B o with
    | some o3, some o' => ⟨o3, reported_name B o⟩ :: record_devices B n o'
    | _, _ => []

/-! ## Sample blobs -/

/-- A string as a field: two bytes of big-endian length, then the bytes. -/
def utf_field (s : List Byte) : List Byte :=
  [Fin.ofNat (s.length / 256), Fin.ofNat (s.length % 256)] ++ s

/-- A device record with `deviceUniqueId` "id", `smartphoneType` "AA", the
given name, if any, the given `userAcceptState` and `lastConnectionType`
fields, both booleans set to 1 and 0, and `lastMode` 2. -/
def device_record (name : Option (List Byte)) (state conn : List Byte) : List Byte :=
  utf_field [0x69, 0x64] ++ utf_field [0x41, 0x41] ++
    (match name with
     | some n => [1] ++ utf_field n
     | none => [0]) ++
    state ++ [1, 0] ++ [0, 0, 0, 2] ++ conn

/-- The payload of a device list: schema version 3, the device count and the
records. -/
def device_list (count : Byte) (records : List Byte) : List Byte :=
  [0, 0, 0, 3, 0, 0, 0, count] ++ records

/-- A payload behind the header that holds its CRC32. -/
def with_checksum (payload : List Byte) : List Byte :=
  be64_bytes (calculate_crc32 payload) ++ payload

/-- The name "Phone". -/
def phone : List Byte := [0x50, 0x68, 0x6F, 0x6E, 0x65]

/-- The `lastConnectionType` field "usb". -/
def usb_field : List Byte := utf_field [0x75, 0x73, 0x62]

/-- The empty device list: version 3, count 0, valid checksum. -/
def empty_list : List Byte :=
  [0, 0, 0, 0, 0x22, 0x82, 0xA5, 0xB9, 0, 0, 0, 3, 0, 0, 0, 0]

/-- One device "Phone" with `userAcceptState` `DISCLAIMER_ACCEPTED`. -/
def healthy_phone : List Byte :=
  with_checksum (device_list 1 (device_record (some phone) PATTERN_DISCLAIMER_ACCEPTED usb_field))

/-- One device "Phone" with `userAcceptState` `NATIVE_SELECTED`. -/
def corrupted_phone : List Byte :=
  with_checksum (device_list 1 (device_record (some phone) PATTERN_NATIVE_SELECTED usb_field))

/-- One device without a name and with `userAcceptState` `NATIVE_SELECTED`. -/
def corrupted_nameless : List Byte :=
  with_checksum (device_list 1 (device_record none PATTERN_NATIVE_SELECTED usb_field))

/-- One healthy device whose name is "NATIVE_SELECTED". -/
def healthy_named_native : List Byte :=
  with_checksum (device_list 1
    (device_record (some (PATTERN_NATIVE_SELECTED.drop 2)) PATTERN_DISCLAIMER_ACCEPTED usb_field))

/-- One device "Phone" with `userAcceptState` `NATIVE_SELECTED` whose
`lastConnectionType` declares nine bytes where one is left. -/
def truncated_phone : List Byte :=
  with_checksum (device_list 1
    (device_record (some phone) PATTERN_NATIVE_SELECTED [0x00, 0x09, 0x75]))

/-- The record of a nameless device with `userAcceptState` `NATIVE_SELECTED`
and empty strings elsewhere, 30 bytes. -/
def small_record : List Byte :=
  [0, 0, 0, 0, 0] ++ PATTERN_NATIVE_SELECTED ++ [0, 0, 0, 0, 0, 0, 0, 0]

/-- 33 devices, each with `userAcceptState` `NATIVE_SELECTED`. -/
def thirty_three_devices : List Byte :=
  with_checksum (device_list 33 (List.replicate 33 small_record).flatten)

instance (B : List Byte) : Decidable (well_formed B) := by
  unfold well_formed
  infer_instance

/-- Two devices: "Phone" with `userAcceptState` `NATIVE_SELECTED`, complete, and
a second record whose `name` declares five bytes where one is left. -/
def second_truncated : List Byte :=
  with_checksum (device_list 2
    (device_record (some phone) PATTERN_NATIVE_SELECTED usb_field ++
      (utf_field [0x69, 0x64] ++ utf_field [0x41, 0x41] ++ [1, 0x00, 0x05, 0x50])))

/-- One device whose record ends right behind its `deviceUniqueId` "id": 20
bytes, nothing is left for `smartphoneType`. -/
def cut_after_device_id : List Byte :=
  with_checksum (device_list 1 (utf_field [0x69, 0x64]))

/-- One device with `userAcceptState` `NATIVE_SELECTED` whose name is the three
bytes `41 00 42`. -/
def nul_named : List Byte :=
  with_checksum (device_list 1
    (device_record (some [0x41, 0x00, 0x42]) PATTERN_NATIVE_SELECTED usb_field))

/-- One device with `userAcceptState` `NATIVE_SELECTED` whose name is 300 times
the letter "a". -/
def long_named : List Byte :=
  with_checksum (device_list 1
    (device_record (some (List.replicate 300 0x61)) PATTERN_NATIVE_SELECTED usb_field))

/-! ## Checksum and big-endian fields -/

theorem crc32_bit_lt {c : Nat} (h : c < 2 ^ 32) : crc32_bit c < 2 ^ 32 := by
  have h1 : c >>> 1 < 2 ^ 32 := by
    rw [Nat.shiftRight_eq_div_pow]
    exact lt_of_le_of_lt (Nat.div_le_self _ _) h
  unfold crc32_bit
  split
  · exact Nat.xor_lt_two_pow h1 (by norm_num)
  · exact h1

theorem crc32_byte_lt {c : Nat} (b : Byte) (h : c < 2 ^ 32) : crc32_byte c b < 2 ^ 32 := by
  have hb : b.val < 2 ^ 32 := lt_trans b.isLt (by norm_num)
  have h0 : c ^^^ b.val < 2 ^ 32 := Nat.xor_lt_two_pow h hb
  unfold crc32_byte
  exact crc32_bit_lt (crc32_bit_lt (crc32_bit_lt (crc32_bit_lt (crc32_bit_lt (crc32_bit_lt
    (crc32_bit_lt (crc32_bit_lt h0)))))))

theorem crc32_fold_lt (data : List Byte) : ∀ {c : Nat}, c < 2 ^ 32 →
    data.foldl crc32_byte c < 2 ^ 32 := by
  induction data with
  | nil => intro c h; simpa using h
  | cons b t ih => intro c h; exact ih (crc32_byte_lt b h)

theorem calculate_crc32_lt (data : List Byte) : calculate_crc32 data < 2 ^ 32 := by
  unfold calculate_crc32 crc32
  exact Nat.xor_lt_two_pow (crc32_fold_lt data (by norm_num)) (by norm_num)

theorem or_eq_add_of_dvd {x y : Nat} (k : Nat) (hx : 2 ^ k ∣ x) (hy : y < 2 ^ k) :
    x ||| y = x + y := by
  obtain ⟨a, rfl⟩ := hx
  exact (Nat.mul_add_lt_is_or hy a).symm

theorem be64_value (b0 b1 b2 b3 b4 b5 b6 b7 : Byte) :
    ((b0.val <<< 56) ||| (b1.val <<< 48) ||| (b2.val <<< 40) ||| (b3.val <<< 32) |||
      (b4.val <<< 24) ||| (b5.val <<< 16) ||| (b6.val <<< 8) ||| b7.val) =
    b0.val * 2 ^ 56 + b1.val * 2 ^ 48 + b2.val * 2 ^ 40 + b3.val * 2 ^ 32 +
      b4.val * 2 ^ 24 + b5.val * 2 ^ 16 + b6.val * 2 ^ 8 + b7.val := by
  have h0 := b0.isLt; have h1 := b1.isLt; have h2 := b2.isLt; have h3 := b3.isLt
  have h4 := b4.isLt; have h5 := b5.isLt; have h6 := b6.isLt; have h7 := b7.isLt
  simp only [Nat.shiftLeft_eq]
  rw [or_eq_add_of_dvd 56 (x := b0.val * 2 ^ 56) (y := b1.val * 2 ^ 48) (by omega) (by omega),
    or_eq_add_of_dvd 48 (y := b2.val * 2 ^ 40) (by omega) (by omega),
    or_eq_add_of_dvd 40 (y := b3.val * 2 ^ 32) (by omega) (by omega),
    or_eq_add_of_dvd 32 (y := b4.val * 2 ^ 24) (by omega) (by omega),
    or_eq_add_of_dvd 24 (y := b5.val * 2 ^ 16) (by omega) (by omega),
    or_eq_add_of_dvd 16 (y := b6.val * 2 ^ 8) (by omega) (by omega),
    or_eq_add_of_dvd 8 (y := b7.val) (by omega) (by omega)]

theorem be64_byte_val (val s : Nat) :
    (Fin.ofNat ((val >>> s) &&& 0xff) : Byte).val = val / 2 ^ s % 256 := by
  have h := Nat.and_pow_two_sub_one_eq_mod (val >>> s) 8
  have h' : (val >>> s) &&& 0xff = (val >>> s) % 256 := h
  rw [h', Nat.shiftRight_eq_div_pow]
  simp [Fin.ofNat]

theorem read_be64_bytes (val : Nat) (rest : List Byte) (h : val < 2 ^ 64) :
    read_be64 (be64_bytes val ++ rest) = some val := by
  simp only [be64_bytes, read_be64, List.cons_append, List.nil_append]
  rw [be64_value]
  have e := be64_byte_val val
  have e0 := e 0
  simp only [Nat.shiftRight_zero, pow_zero, Nat.div_one] at e0
  rw [e 56, e 48, e 40, e 32, e 24, e 16, e 8, e0]
  congr 1
  omega

/-! ## The byte scan -/

theorem find_loop_eq (blob : List Byte) (parsed : List device_issue_t) (max_issues : Nat) :
    ∀ fuel pos count, blob.length + 1 - PATTERN_NATIVE_LEN - pos ≤ fuel →
      find_loop blob parsed max_issues fuel pos count =
        ((occurrences_from pos blob).take (max_issues - count)).map
          (fun p => ⟨p, matching_name parsed p⟩) := by
  intro fuel
  induction fuel with
  | zero =>
    intro pos count h
    have h0 : blob.length + 1 - PATTERN_NATIVE_LEN - pos = 0 := by omega
    simp [find_loop, occurrences_from, h0]
  | succ fuel ih =>
    intro pos count h
    unfold find_loop
    by_cases hc : pos + PATTERN_NATIVE_LEN ≤ blob.length ∧ count < max_issues
    · rw [if_pos hc]
      have hn : blob.length + 1 - PATTERN_NATIVE_LEN - pos =
          (blob.length + 1 - PATTERN_NATIVE_LEN - (pos + 1)) + 1 := by omega
      have hm : max_issues - count = (max_issues - (count + 1)) + 1 := by omega
      have hr : occurrences_from pos blob =
          if pattern_at blob pos then pos :: occurrences_from (pos + 1) blob
          else occurrences_from (pos + 1) blob := by
        unfold occurrences_from
        rw [hn, List.range'_succ, List.filter_cons]
      rw [hr]
      by_cases hp : pattern_at blob pos = true
      · rw [if_pos hp, if_pos hp, ih (pos + 1) (count + 1) (by omega), hm, List.take_succ_cons,
          List.map_cons]
      · rw [if_neg hp, if_neg hp, ih (pos + 1) count (by omega)]
    · rw [if_neg hc]
      by_cases h1 : pos + PATTERN_NATIVE_LEN ≤ blob.length
      · have h2 : max_issues - count = 0 := by omega
        simp [h2]
      · have h0 : blob.length + 1 - PATTERN_NATIVE_LEN - pos = 0 := by omega
        simp [occurrences_from, h0]

theorem find_issues_eq (blob : List Byte) (max_issues : Nat) :
    find_issues blob max_issues =
      ((occurrences blob).take max_issues).map
        (fun p => ⟨p, matching_name (parse_device_names blob 32).devices p⟩) := by
  unfold find_issues occurrences
  rw [find_loop_eq blob _ max_issues blob.length 0 0 (by unfold PATTERN_NATIVE_LEN; omega)]
  rfl

theorem find_issues_positions (blob : List Byte) (max_issues : Nat) :
    (find_issues blob max_issues).map (fun d => d.position) =
      (occurrences blob).take max_issues := by
  rw [find_issues_eq, List.map_map]
  simp [Function.comp_def]

theorem pattern_at_getElem {blob : List Byte} {p : Nat} (h : pattern_at blob p = true) :
    ∀ j, j < 17 → blob[p + j]? = PATTERN_NATIVE_SELECTED[j]? := by
  intro j hj
  have h1 : (blob.drop p).take PATTERN_NATIVE_LEN = PATTERN_NATIVE_SELECTED := by
    simpa [pattern_at] using h
  have h2 : ((blob.drop p).take PATTERN_NATIVE_LEN)[j]? = PATTERN_NATIVE_SELECTED[j]? := by
    rw [h1]
  rw [List.getElem?_take] at h2
  rw [if_pos (by unfold PATTERN_NATIVE_LEN; omega), List.getElem?_drop] at h2
  exact h2

theorem pattern_at_bound {blob : List Byte} {p : Nat} (h : pattern_at blob p = true) :
    p + 17 ≤ blob.length := by
  have h16 := pattern_at_getElem h 16 (by omega)
  have : blob[p + 16]? = some 0x44 := by rw [h16]; rfl
  have := (List.getElem?_eq_some_iff.mp this).1
  omega

theorem pattern_tail_ne_zero : ∀ j, 1 ≤ j → j < 17 → PATTERN_NATIVE_SELECTED[j]? ≠ some 0 := by
  decide

theorem pattern_at_gap {blob : List Byte} {p q : Nat} (hp : pattern_at blob p = true)
    (hq : pattern_at blob q = true) (hpq : p < q) : p + 17 ≤ q := by
  by_contra hcon
  have h1 := pattern_at_getElem hp (q - p) (by omega)
  have h2 := pattern_at_getElem hq 0 (by omega)
  have e : p + (q - p) = q + 0 := by omega
  rw [e, h2] at h1
  exact pattern_tail_ne_zero (q - p) (by omega) (by omega) h1.symm

theorem occurrences_from_mem {lo : Nat} {blob : List Byte} {p : Nat} :
    p ∈ occurrences_from lo blob ↔ lo ≤ p ∧ pattern_at blob p = true := by
  unfold occurrences_from
  rw [List.mem_filter, List.mem_range'_1]
  constructor
  · rintro ⟨⟨h1, _⟩, h3⟩
    exact ⟨h1, h3⟩
  · rintro ⟨h1, h3⟩
    have := pattern_at_bound h3
    exact ⟨⟨h1, by unfold PATTERN_NATIVE_LEN; omega⟩, h3⟩

theorem occurrences_mem {blob : List Byte} {p : Nat} :
    p ∈ occurrences blob ↔ pattern_at blob p = true := by
  unfold occurrences
  rw [occurrences_from_mem]
  simp

theorem occurrences_pairwise (blob : List Byte) :
    (occurrences blob).Pairwise (fun a b => a + 17 ≤ b) := by
  have h1 : (occurrences blob).Pairwise (fun a b => a < b) := by
    unfold occurrences occurrences_from
    exact List.Pairwise.filter _ (List.pairwise_lt_range' _ _)
  have h2 := List.Pairwise.and_mem.mp h1
  refine h2.imp ?_
  rintro a b ⟨ha, hb, hab⟩
  exact pattern_at_gap (occurrences_mem.mp ha) (occurrences_mem.mp hb) hab

/-! ## The copy loop -/

theorem at_issue_iff (issues : List device_issue_t) (rp : Nat) :
    at_issue issues rp = true ↔ rp ∈ issues.map (fun d => d.position) := by
  simp only [at_issue, List.any_eq_true, List.mem_map, beq_iff_eq]
  constructor
  · rintro ⟨d, hd, e⟩
    exact ⟨d, hd, e.symm⟩
  · rintro ⟨d, hd, e⟩
    exact ⟨d, hd, e.symm⟩

/-- Passing an issue at `rp` takes one position out of those counted from `rp` on. -/
theorem count_between_hit {ps : List Nat} (hpw : ps.Pairwise (fun a b => a + 17 ≤ b))
    {rp hi : Nat} (hm : rp ∈ ps) (hhi : rp < hi) :
    ps.countP (fun p => decide (rp ≤ p ∧ p < hi)) =
      ps.countP (fun p => decide (rp + 17 ≤ p ∧ p < hi)) + 1 := by
  induction ps with
  | nil => simp at hm
  | cons a t ih =>
    rw [List.pairwise_cons] at hpw
    by_cases e : rp = a
    · subst e
      have hc : t.countP (fun p => decide (rp ≤ p ∧ p < hi)) =
          t.countP (fun p => decide (rp + 17 ≤ p ∧ p < hi)) := by
        apply List.countP_congr
        intro b hb
        have := hpw.1 b hb
        simp only [decide_eq_true_eq]
        omega
      rw [List.countP_cons, List.countP_cons, hc]
      have h1 : decide (rp ≤ rp ∧ rp < hi) = true := by simpa using hhi
      have h2 : decide (rp + 17 ≤ rp ∧ rp < hi) = false := by simp
      simp [hhi]
    · have hm' : rp ∈ t := by
        rcases List.mem_cons.mp hm with h | h
        · exact absurd h e
        · exact h
      have := hpw.1 rp hm'
      rw [List.countP_cons, List.countP_cons, ih hpw.2 hm']
      have h1 : decide (rp ≤ a ∧ a < hi) = false := by simp; omega
      have h2 : decide (rp + 17 ≤ a ∧ a < hi) = false := by simp; omega
      simp [h1, h2]

theorem count_between_miss {ps : List Nat} {rp hi : Nat} (hm : rp ∉ ps) :
    ps.countP (fun p => decide (rp ≤ p ∧ p < hi)) =
      ps.countP (fun p => decide (rp + 1 ≤ p ∧ p < hi)) := by
  apply List.countP_congr
  intro b hb
  have : b ≠ rp := fun e => hm (e ▸ hb)
  simp only [decide_eq_true_eq]
  omega

theorem count_between_empty (ps : List Nat) (rp : Nat) :
    ps.countP (fun p => decide (rp ≤ p ∧ p < rp)) = 0 := by
  rw [List.countP_eq_zero]
  intro b _
  simp only [decide_eq_true_eq]
  omega

theorem count_between_all {ps : List Nat} {hi : Nat} (h : ∀ p ∈ ps, p < hi) :
    ps.countP (fun p => decide (0 ≤ p ∧ p < hi)) = ps.length := by
  rw [List.countP_eq_length]
  intro b hb
  simpa using h b hb

theorem copy_loop_length (blob : List Byte) (issues : List device_issue_t)
    (hpw : (issues.map (fun d => d.position)).Pairwise (fun a b => a + 17 ≤ b))
    (hb : ∀ p ∈ issues.map (fun d => d.position), p + 17 ≤ blob.length) :
    ∀ fuel rp, blob.length - rp ≤ fuel →
      (copy_loop blob issues fuel rp).length =
        (blob.length - rp) + 4 * (issues.map (fun d => d.position)).countP
          (fun p => decide (rp ≤ p ∧ p < blob.length)) := by
  intro fuel
  induction fuel with
  | zero =>
    intro rp h
    have : (issues.map (fun d => d.position)).countP
        (fun p => decide (rp ≤ p ∧ p < blob.length)) = 0 := by
      rw [List.countP_eq_zero]
      intro b _
      simp only [decide_eq_true_eq]
      omega
    rw [this]
    simp [copy_loop]
    omega
  | succ fuel ih =>
    intro rp h
    unfold copy_loop
    by_cases hlt : rp < blob.length
    · rw [dif_pos hlt]
      by_cases hat : at_issue issues rp = true
      · rw [if_pos hat]
        have hm := (at_issue_iff issues rp).mp hat
        have h17 := hb rp hm
        rw [List.length_append, ih (rp + PATTERN_NATIVE_LEN) (by unfold PATTERN_NATIVE_LEN; omega),
          count_between_hit hpw hm hlt]
        simp only [PATTERN_NATIVE_LEN, PATTERN_DISCLAIMER_ACCEPTED, List.length_cons,
          List.length_nil]
        omega
      · rw [if_neg hat]
        have hm : rp ∉ issues.map (fun d => d.position) :=
          fun hh => hat ((at_issue_iff issues rp).mpr hh)
        rw [List.length_cons, ih (rp + 1) (by omega), count_between_miss hm]
        omega
    · rw [dif_neg hlt]
      have : (issues.map (fun d => d.position)).countP
          (fun p => decide (rp ≤ p ∧ p < blob.length)) = 0 := by
        rw [List.countP_eq_zero]
        intro b _
        simp only [decide_eq_true_eq]
        omega
      rw [this]
      simp
      omega

theorem copy_loop_getElem (blob : List Byte) (issues : List device_issue_t)
    (hpw : (issues.map (fun d => d.position)).Pairwise (fun a b => a + 17 ≤ b)) (i : Nat)
    (hi : i < blob.length)
    (hout : ∀ p ∈ issues.map (fun d => d.position), ¬ (p ≤ i ∧ i < p + 17)) :
    ∀ fuel rp, blob.length - rp ≤ fuel → rp ≤ i →
      (copy_loop blob issues fuel rp)[(i - rp) + 4 * (issues.map (fun d => d.position)).countP
          (fun p => decide (rp ≤ p ∧ p < i))]? = blob[i]? := by
  intro fuel
  induction fuel with
  | zero => intro rp h hrp; omega
  | succ fuel ih =>
    intro rp h hrp
    unfold copy_loop
    have hlt : rp < blob.length := by omega
    rw [dif_pos hlt]
    by_cases hat : at_issue issues rp = true
    · rw [if_pos hat]
      have hm := (at_issue_iff issues rp).mp hat
      have hw := hout rp hm
      have h17 : rp + 17 ≤ i := by omega
      rw [count_between_hit hpw hm (by omega), List.getElem?_append_right
        (by simp only [PATTERN_DISCLAIMER_ACCEPTED, List.length_cons, List.length_nil]; omega)]
      have := ih (rp + PATTERN_NATIVE_LEN) (by unfold PATTERN_NATIVE_LEN; omega)
        (by unfold PATTERN_NATIVE_LEN; omega)
      rw [← this]
      congr 1
      simp only [PATTERN_NATIVE_LEN, PATTERN_DISCLAIMER_ACCEPTED, List.length_cons,
        List.length_nil]
      omega
    · rw [if_neg hat]
      have hm : rp ∉ issues.map (fun d => d.position) :=
        fun hh => hat ((at_issue_iff issues rp).mpr hh)
      by_cases e : i = rp
      · subst e
        rw [count_between_empty]
        simp
      · rw [count_between_miss hm]
        have := ih (rp + 1) (by omega) (by omega)
        rw [← this]
        have e2 : i - rp + 4 * (issues.map (fun d => d.position)).countP
            (fun p => decide (rp + 1 ≤ p ∧ p < i)) =
            (i - (rp + 1) + 4 * (issues.map (fun d => d.position)).countP
            (fun p => decide (rp + 1 ≤ p ∧ p < i))) + 1 := by omega
        rw [e2, List.getElem?_cons_succ]

theorem copy_loop_fuel (blob : List Byte) (issues : List device_issue_t) :
    ∀ f1 f2 rp, blob.length - rp ≤ f1 → blob.length - rp ≤ f2 →
      copy_loop blob issues f1 rp = copy_loop blob issues f2 rp := by
  intro f1
  induction f1 with
  | zero =>
    intro f2 rp h1 _
    cases f2 with
    | zero => rfl
    | succ f2 =>
      unfold copy_loop
      rw [dif_neg (by omega)]
  | succ f1 ih =>
    intro f2 rp h1 h2
    by_cases hlt : rp < blob.length
    · cases f2 with
      | zero => omega
      | succ f2 =>
        rw [copy_loop, copy_loop, dif_pos hlt, dif_pos hlt,
          ih f2 (rp + PATTERN_NATIVE_LEN) (by unfold PATTERN_NATIVE_LEN; omega)
            (by unfold PATTERN_NATIVE_LEN; omega),
          ih f2 (rp + 1) (by omega) (by omega)]
    · rw [copy_loop, dif_neg hlt]
      cases f2 with
      | zero => rfl
      | succ f2 => rw [copy_loop, dif_neg hlt]

theorem copy_loop_drop (blob : List Byte) (issues : List device_issue_t)
    (hpw : (issues.map (fun d => d.position)).Pairwise (fun a b => a + 17 ≤ b)) (i : Nat)
    (hi : i ≤ blob.length)
    (hout : ∀ p ∈ issues.map (fun d => d.position), ¬ (p < i ∧ i < p + 17)) :
    ∀ fuel rp, blob.length - rp ≤ fuel → rp ≤ i →
      (copy_loop blob issues fuel rp).drop ((i - rp) +
          4 * (issues.map (fun d => d.position)).countP (fun p => decide (rp ≤ p ∧ p < i))) =
        copy_loop blob issues (blob.length - i) i := by
  intro fuel
  induction fuel with
  | zero =>
    intro rp h hrp
    have e : i = rp := by omega
    subst e
    rw [count_between_empty]
    simp only [Nat.sub_self, Nat.mul_zero, Nat.add_zero, List.drop_zero]
    exact copy_loop_fuel blob issues _ _ _ (by omega) (by omega)
  | succ fuel ih =>
    intro rp h hrp
    by_cases e : i = rp
    · subst e
      rw [count_between_empty]
      simp only [Nat.sub_self, Nat.mul_zero, Nat.add_zero, List.drop_zero]
      exact copy_loop_fuel blob issues _ _ _ (by omega) (by omega)
    · have hlt : rp < blob.length := by omega
      rw [copy_loop, dif_pos hlt]
      by_cases hat : at_issue issues rp = true
      · rw [if_pos hat]
        have hm := (at_issue_iff issues rp).mp hat
        have hw := hout rp hm
        have h17 : rp + 17 ≤ i := by omega
        rw [count_between_hit hpw hm (by omega)]
        rw [← ih (rp + PATTERN_NATIVE_LEN) (by unfold PATTERN_NATIVE_LEN; omega)
          (by unfold PATTERN_NATIVE_LEN; omega)]
        have e2 : i - rp + 4 * ((issues.map (fun d => d.position)).countP
            (fun p => decide (rp + 17 ≤ p ∧ p < i)) + 1) =
            PATTERN_DISCLAIMER_ACCEPTED.length + (i - (rp + PATTERN_NATIVE_LEN) +
              4 * (issues.map (fun d => d.position)).countP
                (fun p => decide (rp + PATTERN_NATIVE_LEN ≤ p ∧ p < i))) := by
          simp only [PATTERN_NATIVE_LEN, PATTERN_DISCLAIMER_ACCEPTED, List.length_cons,
            List.length_nil]
          omega
        rw [e2, List.drop_append]
      · rw [if_neg hat]
        have hm : rp ∉ issues.map (fun d => d.position) :=
          fun hh => hat ((at_issue_iff issues rp).mpr hh)
        rw [count_between_miss hm, ← ih (rp + 1) (by omega) (by omega)]
        have e2 : i - rp + 4 * (issues.map (fun d => d.position)).countP
            (fun p => decide (rp + 1 ≤ p ∧ p < i)) =
            (i - (rp + 1) + 4 * (issues.map (fun d => d.position)).countP
            (fun p => decide (rp + 1 ≤ p ∧ p < i))) + 1 := by omega
        rw [e2, List.drop_succ_cons]

theorem copy_loop_no_issue (blob : List Byte) (issues : List device_issue_t) (lo : Nat)
    (hno : ∀ r, lo ≤ r → at_issue issues r = false) :
    ∀ fuel rp, blob.length - rp ≤ fuel → lo ≤ rp →
      copy_loop blob issues fuel rp = blob.drop rp := by
  intro fuel
  induction fuel with
  | zero =>
    intro rp h _
    rw [copy_loop, List.drop_eq_nil_of_le (by omega)]
  | succ fuel ih =>
    intro rp h hlo
    rw [copy_loop]
    by_cases hlt : rp < blob.length
    · rw [dif_pos hlt, hno rp hlo, ih (rp + 1) (by omega) (by omega)]
      simp
    · rw [dif_neg hlt, List.drop_eq_nil_of_le (by omega)]

theorem pattern_tail_nonzero : ∀ x ∈ PATTERN_NATIVE_SELECTED.tail, x ≠ (0 : Byte) := by
  intro x hx
  simp only [PATTERN_NATIVE_SELECTED, List.tail_cons, List.mem_cons, List.mem_singleton,
    List.not_mem_nil, or_false] at hx
  rcases hx with h | h | h | h | h | h | h | h | h | h | h | h | h | h | h | h <;>
    (rw [h]; decide)

theorem copy_loop_nonzero_start (blob : List Byte) (issues : List device_issue_t) :
    ∀ w : List Byte, (∀ x ∈ w, x ≠ 0) → ∀ fuel rp,
      (copy_loop blob issues fuel rp).take w.length = w → (blob.drop rp).take w.length = w := by
  intro w
  induction w with
  | nil => intro _ fuel rp _; simp
  | cons x w ih =>
    intro hx fuel rp h
    cases fuel with
    | zero => simp [copy_loop] at h
    | succ fuel =>
      rw [copy_loop] at h
      by_cases hlt : rp < blob.length
      · rw [dif_pos hlt] at h
        by_cases hat : at_issue issues rp = true
        · rw [if_pos hat] at h
          simp only [PATTERN_DISCLAIMER_ACCEPTED, List.length_cons, List.cons_append,
            List.take_succ_cons, List.cons.injEq] at h
          exact absurd h.1.symm (hx x (List.mem_cons_self _ _))
        · rw [if_neg hat] at h
          simp only [List.length_cons, List.take_succ_cons, List.cons.injEq] at h
          have h2 := ih (fun y hy => hx y (List.mem_cons_of_mem _ hy)) fuel (rp + 1) h.2
          rw [List.drop_eq_getElem_cons hlt]
          simp only [List.length_cons, List.take_succ_cons, List.cons.injEq]
          exact ⟨h.1, h2⟩
      · rw [dif_neg hlt] at h
        simp at h

theorem pattern_at_nil (j : Nat) : pattern_at [] j = false := by
  simp [pattern_at, PATTERN_NATIVE_SELECTED]

theorem pattern_at_cons_succ (b : Byte) (l : List Byte) (j : Nat) :
    pattern_at (b :: l) (j + 1) = pattern_at l j := by
  simp [pattern_at]

theorem pattern_at_append_ge (l1 l2 : List Byte) (j : Nat) (h : l1.length ≤ j) :
    pattern_at (l1 ++ l2) j = pattern_at l2 (j - l1.length) := by
  unfold pattern_at
  have e : j = l1.length + (j - l1.length) := by omega
  rw [e, List.drop_append]
  simp

theorem disclaimer_inner_nonzero : ∀ j, 1 ≤ j → j < 21 →
    PATTERN_DISCLAIMER_ACCEPTED[j]? ≠ some 0 := by
  intro j h1 h2
  interval_cases j <;> simp [PATTERN_DISCLAIMER_ACCEPTED]

theorem copy_loop_no_pattern (blob : List Byte) (issues : List device_issue_t)
    (hall : ∀ q, pattern_at blob q = true → at_issue issues q = true) :
    ∀ fuel rp j, pattern_at (copy_loop blob issues fuel rp) j = false := by
  intro fuel
  induction fuel with
  | zero => intro rp j; rw [copy_loop]; exact pattern_at_nil j
  | succ fuel ih =>
    intro rp j
    rw [copy_loop]
    by_cases hlt : rp < blob.length
    · rw [dif_pos hlt]
      by_cases hat : at_issue issues rp = true
      · rw [if_pos hat]
        by_cases hj : PATTERN_DISCLAIMER_ACCEPTED.length ≤ j
        · rw [pattern_at_append_ge _ _ _ hj]
          exact ih _ _
        · have hj' : j < 21 := by
            simpa [PATTERN_DISCLAIMER_ACCEPTED] using hj
          by_contra hcon
          have hp : pattern_at (PATTERN_DISCLAIMER_ACCEPTED ++
              copy_loop blob issues fuel (rp + PATTERN_NATIVE_LEN)) j = true := by
            simpa using hcon
          by_cases j0 : j = 0
          · subst j0
            have := pattern_at_getElem hp 1 (by omega)
            simp [PATTERN_DISCLAIMER_ACCEPTED, PATTERN_NATIVE_SELECTED] at this
          · have h0 := pattern_at_getElem hp 0 (by omega)
            rw [Nat.add_zero, List.getElem?_append_left (by
              simp only [PATTERN_DISCLAIMER_ACCEPTED, List.length_cons, List.length_nil]
              omega)] at h0
            exact disclaimer_inner_nonzero j (by omega) hj' h0
      · rw [if_neg hat]
        cases j with
        | succ j => rw [pattern_at_cons_succ]; exact ih _ _
        | zero =>
          by_contra hcon
          have hp : pattern_at (blob[rp] ::
              copy_loop blob issues fuel (rp + 1)) 0 = true := by
            simpa using hcon
          have hp' : (blob[rp] :: copy_loop blob issues fuel (rp + 1)).take 17 =
              PATTERN_NATIVE_SELECTED := by
            simpa [pattern_at, PATTERN_NATIVE_LEN] using hp
          have hP : PATTERN_NATIVE_SELECTED = 0 :: PATTERN_NATIVE_SELECTED.tail := rfl
          rw [hP, List.take_succ_cons, List.cons.injEq] at hp'
          have h2 := copy_loop_nonzero_start blob issues PATTERN_NATIVE_SELECTED.tail
            pattern_tail_nonzero fuel (rp + 1) hp'.2
          have h3 : pattern_at blob rp = true := by
            unfold pattern_at
            rw [List.drop_eq_getElem_cons hlt, hP]
            simp only [PATTERN_NATIVE_LEN, List.take_succ_cons, beq_iff_eq, List.cons.injEq]
            exact ⟨hp'.1, h2⟩
          exact hat (hall rp h3)
    · rw [dif_neg hlt]
      exact pattern_at_nil j

/-! ## The replacement buffer and the run in fix mode -/

theorem issues_pairwise (B : List Byte) (m : Nat) :
    ((find_issues B m).map (fun d => d.position)).Pairwise (fun a b => a + 17 ≤ b) := by
  rw [find_issues_positions]
  exact (occurrences_pairwise B).sublist (List.take_sublist _ _)

theorem issues_pattern (B : List Byte) (m : Nat) :
    ∀ p ∈ (find_issues B m).map (fun d => d.position), pattern_at B p = true := by
  intro p hp
  rw [find_issues_positions] at hp
  exact occurrences_mem.mp (List.mem_of_mem_take hp)

theorem issues_bound (B : List Byte) (m : Nat) :
    ∀ p ∈ (find_issues B m).map (fun d => d.position), p + 17 ≤ B.length :=
  fun p hp => pattern_at_bound (issues_pattern B m p hp)

theorem find_issues_length (B : List Byte) (m : Nat) :
    (find_issues B m).length = min (occurrences B).length m := by
  have h := congrArg List.length (find_issues_positions B m)
  rw [List.length_map, List.length_take] at h
  rw [h, Nat.min_comm]

theorem copy_loop_issues_length (B : List Byte) (m : Nat) :
    (copy_loop B (find_issues B m) B.length 0).length =
      new_blob_len B.length (find_issues B m).length := by
  rw [copy_loop_length B _ (issues_pairwise B m) (issues_bound B m) B.length 0 (by omega),
    count_between_all (fun p hp => by have := issues_bound B m p hp; omega), List.length_map]
  simp only [new_blob_len, PATTERN_DISCLAIMER_LEN, PATTERN_NATIVE_LEN]
  omega

theorem build_new_blob_eq (B : List Byte) (m : Nat) :
    build_new_blob B (find_issues B m) =
      be64_bytes (calculate_crc32 ((copy_loop B (find_issues B m) B.length 0).drop 8)) ++
        (copy_loop B (find_issues B m) B.length 0).drop 8 := by
  unfold build_new_blob write_be64
  simp only
  rw [List.take_of_length_le]
  rw [List.length_drop, copy_loop_issues_length]

theorem be64_bytes_length (v : Nat) : (be64_bytes v).length = 8 := rfl

theorem build_new_blob_length (B : List Byte) (m : Nat) (h : 8 ≤ B.length) :
    (build_new_blob B (find_issues B m)).length = B.length + 4 * (find_issues B m).length := by
  rw [build_new_blob_eq, List.length_append, List.length_drop, copy_loop_issues_length,
    be64_bytes_length]
  simp only [new_blob_len, PATTERN_DISCLAIMER_LEN, PATTERN_NATIVE_LEN]
  omega

theorem build_new_blob_drop (B : List Byte) (m j : Nat) (hj : 8 ≤ j) :
    (build_new_blob B (find_issues B m)).drop j =
      (copy_loop B (find_issues B m) B.length 0).drop j := by
  rw [build_new_blob_eq]
  have e : j = (be64_bytes (calculate_crc32
      ((copy_loop B (find_issues B m) B.length 0).drop 8))).length + (j - 8) := by
    rw [be64_bytes_length]; omega
  rw [e, List.drop_append, List.drop_drop, be64_bytes_length]

theorem build_new_blob_checksum (B : List Byte) (m : Nat) :
    read_be64 (build_new_blob B (find_issues B m)) =
      some (calculate_crc32 ((build_new_blob B (find_issues B m)).drop 8)) := by
  rw [build_new_blob_drop B m 8 (by omega), build_new_blob_eq]
  exact read_be64_bytes _ _ (lt_trans (calculate_crc32_lt _) (by norm_num))

theorem build_new_blob_upper (B : List Byte) (m : Nat) :
    (build_new_blob B (find_issues B m)).take 4 = [0, 0, 0, 0] := by
  rw [build_new_blob_eq]
  have hc := calculate_crc32_lt ((copy_loop B (find_issues B m) B.length 0).drop 8)
  generalize calculate_crc32 ((copy_loop B (find_issues B m) B.length 0).drop 8) = c at hc
  have z : ∀ s, 32 ≤ s → (Fin.ofNat ((c >>> s) &&& 0xff) : Byte) = 0 := by
    intro s hs
    apply Fin.ext
    rw [be64_byte_val]
    have : c / 2 ^ s = 0 := by
      apply Nat.div_eq_of_lt
      exact lt_of_lt_of_le hc (Nat.pow_le_pow_right (by norm_num) hs)
    rw [this]
    rfl
  simp only [be64_bytes, List.cons_append, List.take_succ_cons, List.take_zero]
  rw [z 56 (by omega), z 48 (by omega), z 40 (by omega), z 32 (by omega)]

theorem find_issues_short (B : List Byte) (m : Nat) (h : B.length < 17) :
    find_issues B m = [] := by
  have h0 : B.length + 1 - PATTERN_NATIVE_LEN - 0 = 0 := by unfold PATTERN_NATIVE_LEN; omega
  rw [find_issues_eq]
  simp [occurrences, occurrences_from, h0]

theorem fix_database_fix (B : List Byte) :
    fix_database fix_mode (database B) =
      if find_issues B 32 = [] then ⟨if B.length < 8 then 1 else 0, none, none⟩
      else ⟨0, some (build_new_blob B (find_issues B 32)), some (build_new_blob B (find_issues B 32))⟩ := by
  by_cases h8 : B.length < 8
  · have := find_issues_short B 32 (by omega)
    simp [fix_database, fix_mode, database, h8, this]
  · by_cases hi : find_issues B 32 = []
    · simp [fix_database, fix_mode, database, h8, hi]
    · have hl : (find_issues B 32).length ≠ 0 := by
        intro h; exact hi (List.length_eq_zero.mp h)
      simp [fix_database, fix_mode, database, h8, hi]

theorem repair_eq (B : List Byte) :
    repair B = if find_issues B 32 = [] then B else build_new_blob B (find_issues B 32) := by
  unfold repair
  rw [fix_database_fix]
  by_cases hi : find_issues B 32 = []
  · simp [hi]
  · simp [hi]

theorem repair_length (B : List Byte) :
    (repair B).length = B.length + 4 * min (occurrences B).length 32 := by
  rw [repair_eq, ← find_issues_length]
  by_cases hi : find_issues B 32 = []
  · simp [hi]
  · rw [if_neg hi]
    by_cases h8 : 8 ≤ B.length
    · exact build_new_blob_length B 32 h8
    · exact absurd (find_issues_short B 32 (by omega)) hi

theorem be64_bytes_read (B : List Byte) (v : Nat) (h : read_be64 B = some v) :
    be64_bytes v ++ B.drop 8 = B := by
  match B, h with
  | b0 :: b1 :: b2 :: b3 :: b4 :: b5 :: b6 :: b7 :: rest, h =>
    simp only [read_be64, Option.some.injEq] at h
    rw [be64_value] at h
    have h0 := b0.isLt; have h1 := b1.isLt; have h2 := b2.isLt; have h3 := b3.isLt
    have h4 := b4.isLt; have h5 := b5.isLt; have h6 := b6.isLt; have h7 := b7.isLt
    have e := be64_byte_val v
    have e0 := e 0
    simp only [Nat.shiftRight_zero, pow_zero, Nat.div_one] at e0
    have k0 : (Fin.ofNat ((v >>> 56) &&& 0xff) : Byte) = b0 := Fin.ext (by rw [e 56]; omega)
    have k1 : (Fin.ofNat ((v >>> 48) &&& 0xff) : Byte) = b1 := Fin.ext (by rw [e 48]; omega)
    have k2 : (Fin.ofNat ((v >>> 40) &&& 0xff) : Byte) = b2 := Fin.ext (by rw [e 40]; omega)
    have k3 : (Fin.ofNat ((v >>> 32) &&& 0xff) : Byte) = b3 := Fin.ext (by rw [e 32]; omega)
    have k4 : (Fin.ofNat ((v >>> 24) &&& 0xff) : Byte) = b4 := Fin.ext (by rw [e 24]; omega)
    have k5 : (Fin.ofNat ((v >>> 16) &&& 0xff) : Byte) = b5 := Fin.ext (by rw [e 16]; omega)
    have k6 : (Fin.ofNat ((v >>> 8) &&& 0xff) : Byte) = b6 := Fin.ext (by rw [e 8]; omega)
    have k7 : (Fin.ofNat (v &&& 0xff) : Byte) = b7 := Fin.ext (by rw [e0]; omega)
    simp only [be64_bytes, k0, k1, k2, k3, k4, k5, k6, k7, List.drop_succ_cons, List.drop_zero,
      List.cons_append, List.nil_append]

theorem find_issues_nil_iff (B : List Byte) : find_issues B 32 = [] ↔ occurrences B = [] := by
  constructor
  · intro h
    have h2 := find_issues_length B 32
    rw [h] at h2
    simp only [List.length_nil] at h2
    apply List.length_eq_zero.mp
    omega
  · intro h
    rw [find_issues_eq, h]
    rfl

theorem build_new_blob_nil (B : List Byte)
    (hcrc : read_be64 B = some (calculate_crc32 (B.drop 8))) :
    build_new_blob B [] = B := by
  have hc : copy_loop B [] B.length 0 = B := by
    rw [copy_loop_no_issue B [] 0 (fun _ _ => rfl) B.length 0 (by omega) (by omega)]
    rfl
  unfold build_new_blob write_be64
  simp only [hc]
  rw [List.take_of_length_le (by simp [new_blob_len])]
  exact be64_bytes_read B _ hcrc

theorem fix_database_buffers (args : args_t) (db : storage) (B : List Byte)
    (hrow : db.row = some B) :
    built_from (build_new_blob B (find_issues B 32)) (fix_database args db) := by
  unfold fix_database
  rw [hrow]
  dsimp only
  generalize build_new_blob B (find_issues B 32) = X
  generalize (find_issues B 32).length = n
  by_cases h1 : (!db.open_ok) = true
  · rw [if_pos h1]; exact ⟨Or.inl rfl, Or.inl rfl⟩
  rw [if_neg h1]
  by_cases h2 : (!db.partition_found) = true
  · rw [if_pos h2]; exact ⟨Or.inl rfl, Or.inl rfl⟩
  rw [if_neg h2]
  by_cases h3 : (!db.select_ok) = true
  · rw [if_pos h3]; exact ⟨Or.inl rfl, Or.inl rfl⟩
  rw [if_neg h3]
  by_cases h4 : B.length < 8
  · rw [if_pos h4]; exact ⟨Or.inl rfl, Or.inl rfl⟩
  rw [if_neg h4]
  by_cases h5 : n = 0
  · rw [if_pos h5]; exact ⟨Or.inl rfl, Or.inl rfl⟩
  rw [if_neg h5]
  by_cases h6 : args.list_only = true
  · rw [if_pos h6]; exact ⟨Or.inl rfl, Or.inl rfl⟩
  rw [if_neg h6]
  by_cases h7 : args.dry_run = true
  · rw [if_pos h7]; exact ⟨Or.inr rfl, Or.inl rfl⟩
  rw [if_neg h7]
  by_cases h8 : (!args.do_fix) = true
  · rw [if_pos h8]; exact ⟨Or.inr rfl, Or.inl rfl⟩
  rw [if_neg h8]
  by_cases h9 : (!args.no_backup && !db.backup_ok) = true
  · rw [if_pos h9]; exact ⟨Or.inr rfl, Or.inl rfl⟩
  rw [if_neg h9]
  by_cases h10 : (!db.prepare_ok) = true
  · rw [if_pos h10]; exact ⟨Or.inr rfl, Or.inl rfl⟩
  rw [if_neg h10]
  by_cases h11 : (!db.update_ok) = true
  · rw [if_pos h11]; exact ⟨Or.inr rfl, Or.inl rfl⟩
  rw [if_neg h11]
  exact ⟨Or.inr rfl, Or.inr rfl⟩

/-- C7 (as amended). The offsets reported by `find_issues`, in the order in
which they are reported, are the first 32 of the indices `i` with
`0 <= i <= L - 17` at which the 17 bytes of the blob equal the sentinel, taken
in ascending order: the scan starts at index 0, not 16, and stops after 32
matches. -/
theorem find_issues_reports_first_32 (B : List Byte) :
    (find_issues B 32).map (fun d => d.position) =
      ((List.range (B.length + 1 - 17)).filter
        (fun i => (B.drop i).take 17 == PATTERN_NATIVE_SELECTED)).take 32 := by
  rw [find_issues_positions]
  unfold occurrences occurrences_from PATTERN_NATIVE_LEN
  rw [List.range_eq_range']
  rfl

/-- C7 fails as stated: on the blob that consists of the sentinel alone the scan
reports offset 0, which is below 16 and not in the occurrence set of the
spec. -/
theorem find_issues_reports_below_16 :
    (find_issues PATTERN_NATIVE_SELECTED 32).map (fun d => d.position) = [0] ∧
      occurrences_from 16 PATTERN_NATIVE_SELECTED = [] := by
  decide!

/-- C2 (as amended). For every blob the output of the repair is longer than the
blob by four bytes for each occurrence reported by `find_issues`, that is for
each of the first 32 occurrences; the copy loop writes exactly the
`blob_len + 4 * issue_count` bytes allocated for `new_blob`. -/
theorem length_law_capped (B : List Byte) :
    (repair B).length = B.length + 4 * min (occurrences B).length 32 ∧
      (find_issues B 32).length = min (occurrences B).length 32 ∧
      (copy_loop B (find_issues B 32) B.length 0).length =
        new_blob_len B.length (find_issues B 32).length ∧
      new_blob_len B.length (find_issues B 32).length =
        B.length + 4 * (find_issues B 32).length := by
  refine ⟨repair_length B, find_issues_length B 32, copy_loop_issues_length B 32, ?_⟩
  simp only [new_blob_len, PATTERN_DISCLAIMER_LEN, PATTERN_NATIVE_LEN]
  omega

/-- C1. For every blob of at least 16 bytes, whatever its header, the buffer
built by the repair transform (`find_issues`, the copy loop and the header
rewrite) has a header that reads as the CRC32 of all bytes after it, with the
upper four bytes zero, and fills the bytes allocated for it; and every buffer
`fix_database` builds or stores, in any mode, is that buffer. -/
theorem checksum_law (B : List Byte) (h : 16 ≤ B.length) :
    (read_be64 (build_new_blob B (find_issues B 32)) =
        some (calculate_crc32 ((build_new_blob B (find_issues B 32)).drop 8)) ∧
      (build_new_blob B (find_issues B 32)).take 4 = [0, 0, 0, 0] ∧
      (build_new_blob B (find_issues B 32)).length =
        new_blob_len B.length (find_issues B 32).length) ∧
    ∀ (args : args_t) (db : storage) (B' : List Byte), db.row = some B →
      ((fix_database args db).new_blob = some B' ∨ (fix_database args db).stored = some B') →
      B' = build_new_blob B (find_issues B 32) := by
  refine ⟨⟨build_new_blob_checksum B 32, build_new_blob_upper B 32, ?_⟩, ?_⟩
  · rw [build_new_blob_length B 32 (by omega)]
    simp only [new_blob_len, PATTERN_DISCLAIMER_LEN, PATTERN_NATIVE_LEN]
    omega
  intro args db B' hrow hout
  obtain ⟨hnb, hst⟩ := fix_database_buffers args db B hrow
  rcases hout with h1 | h1
  · rcases hnb with k | k
    · rw [k] at h1; exact absurd h1 (by simp)
    · rw [k] at h1; exact (Option.some.inj h1).symm
  · rcases hst with k | k
    · rw [k] at h1; exact absurd h1 (by simp)
    · rw [k] at h1; exact (Option.some.inj h1).symm

/-- C3 (as amended). For every blob and every input index `i` that is not in
the header and not inside the 17-byte window of an occurrence reported by
`find_issues` (one of the first 32), the output holds the input byte at index
`i + 4 * k`, where `k` is the number of reported occurrences below `i`. -/
theorem locality_capped (B : List Byte) (i : Nat) (h8 : 8 ≤ i) (hi : i < B.length)
    (hw : ∀ p ∈ (occurrences B).take 32, ¬ (p ≤ i ∧ i < p + 17)) :
    (repair B)[i + 4 * ((occurrences B).take 32).countP (fun p => decide (p < i))]? =
      B[i]? := by
  rw [repair_eq]
  by_cases hn : find_issues B 32 = []
  · rw [if_pos hn]
    have : (occurrences B).take 32 = [] := by
      rw [← find_issues_positions, hn]; rfl
    rw [this]
    simp
  · rw [if_neg hn]
    have hw' : ∀ p ∈ (find_issues B 32).map (fun d => d.position), ¬ (p ≤ i ∧ i < p + 17) := by
      rw [find_issues_positions]; exact hw
    have key := copy_loop_getElem B (find_issues B 32) (issues_pairwise B 32) i hi hw'
      B.length 0 (by omega) (by omega)
    have hc : ((find_issues B 32).map (fun d => d.position)).countP
        (fun p => decide (0 ≤ p ∧ p < i)) =
        ((occurrences B).take 32).countP (fun p => decide (p < i)) := by
      rw [find_issues_positions]
      apply List.countP_congr
      intro b _
      simp
    rw [hc, Nat.sub_zero] at key
    rw [← key]
    have hd := build_new_blob_drop B 32
      (i + 4 * ((occurrences B).take 32).countP (fun p => decide (p < i))) (by omega)
    have := congrArg (fun l => l[0]?) hd
    simpa using this

/-- C5. A blob of at least 16 bytes whose header equals the CRC32 of the bytes
after it and in which the sentinel does not occur is left as it is: fix mode
stores nothing and returns 0, and the transform itself (copy loop and header
rewrite) rebuilds the blob byte for byte, header included. -/
theorem round_trip_identity (B : List Byte) (h16 : 16 ≤ B.length)
    (hcrc : read_be64 B = some (calculate_crc32 (B.drop 8))) (hocc : occurrences B = []) :
    repair B = B ∧ build_new_blob B (find_issues B 32) = B ∧
      fix_database fix_mode (database B) = ⟨0, none, none⟩ := by
  have hn := (find_issues_nil_iff B).mpr hocc
  refine ⟨?_, ?_, ?_⟩
  · rw [repair_eq, if_pos hn]
  · rw [hn]; exact build_new_blob_nil B hcrc
  · rw [fix_database_fix, if_pos hn, if_neg (by omega)]

/-! ## Repairing twice -/

theorem pattern_at_false_of_zero {B : List Byte} {p i : Nat} (hz : B[i]? = some 0)
    (h1 : p < i) (h2 : i < p + 17) : pattern_at B p = false := by
  by_contra hcon
  have hp : pattern_at B p = true := by simpa using hcon
  have h := pattern_at_getElem hp (i - p) (by omega)
  have e : p + (i - p) = i := by omega
  rw [e, hz] at h
  exact pattern_tail_ne_zero (i - p) (by omega) (by omega) h.symm

theorem pattern_at_drop (l : List Byte) (n j : Nat) :
    pattern_at (l.drop n) j = pattern_at l (n + j) := by
  unfold pattern_at
  rw [List.drop_drop]

theorem all_issues_of_le (B : List Byte) (h : (occurrences B).length ≤ 32) :
    ∀ q, pattern_at B q = true → at_issue (find_issues B 32) q = true := by
  intro q hq
  rw [at_issue_iff, find_issues_positions, List.take_of_length_le h]
  exact occurrences_mem.mpr hq

theorem copy_loop_issues_drop8 (B : List Byte) (m : Nat) (hz : B[8]? = some 0) :
    (copy_loop B (find_issues B m) B.length 0).drop 8 =
      copy_loop B (find_issues B m) (B.length - 8) 8 := by
  have hL : 8 < B.length := (List.getElem?_eq_some_iff.mp hz).1
  have hlow : ∀ p ∈ (find_issues B m).map (fun d => d.position), ¬ p < 8 := by
    intro p hp hlt
    have h1 := issues_pattern B m p hp
    rw [pattern_at_false_of_zero hz hlt (by omega)] at h1
    exact absurd h1 (by simp)
  have key := copy_loop_drop B (find_issues B m) (issues_pairwise B m) 8 (by omega)
    (fun p hp hh => hlow p hp hh.1) B.length 0 (by omega) (by omega)
  have hc : ((find_issues B m).map (fun d => d.position)).countP
      (fun p => decide (0 ≤ p ∧ p < 8)) = 0 := by
    rw [List.countP_eq_zero]
    intro p hp
    have := hlow p hp
    simp only [decide_eq_true_eq]
    omega
  rw [hc] at key
  exact key

theorem copy_loop_head_zero (B : List Byte) (issues : List device_issue_t) (fuel rp : Nat)
    (hz : B[rp]? = some 0) (x : Byte)
    (hx : (copy_loop B issues fuel rp)[0]? = some x) : x = 0 := by
  have hL : rp < B.length := (List.getElem?_eq_some_iff.mp hz).1
  cases fuel with
  | zero => simp [copy_loop] at hx
  | succ fuel =>
    rw [copy_loop, dif_pos hL] at hx
    by_cases hat : at_issue issues rp = true
    · rw [if_pos hat] at hx
      simp [PATTERN_DISCLAIMER_ACCEPTED] at hx
      exact hx.symm
    · rw [if_neg hat] at hx
      rw [List.getElem?_eq_getElem hL] at hz
      simp at hx
      rw [← hx]
      exact Option.some.inj hz

theorem no_pattern_after_header (hdr O : List Byte) (hh : hdr.length = 8)
    (h0 : ∀ x, O[0]? = some x → x = 0) (hO : ∀ j, pattern_at O j = false) :
    ∀ j, pattern_at (hdr ++ O) j = false := by
  intro j
  by_cases hj : 8 ≤ j
  · rw [pattern_at_append_ge _ _ _ (by omega)]
    exact hO _
  · by_contra hcon
    have hp : pattern_at (hdr ++ O) j = true := by simpa using hcon
    have h := pattern_at_getElem hp (8 - j) (by omega)
    have e : j + (8 - j) = 8 := by omega
    rw [e, List.getElem?_append_right (by omega), hh, Nat.sub_self] at h
    have hsome : ∃ x, PATTERN_NATIVE_SELECTED[8 - j]? = some x := by
      have : 8 - j < PATTERN_NATIVE_SELECTED.length := by
        simp only [PATTERN_NATIVE_SELECTED, List.length_cons, List.length_nil]; omega
      exact ⟨_, List.getElem?_eq_getElem this⟩
    obtain ⟨x, hx⟩ := hsome
    rw [hx] at h
    have := h0 x h
    rw [this] at hx
    exact pattern_tail_ne_zero (8 - j) (by omega) (by omega) hx

theorem repair_no_pattern (B : List Byte) (hz : B[8]? = some 0)
    (h : (occurrences B).length ≤ 32) : ∀ j, pattern_at (repair B) j = false := by
  rw [repair_eq]
  by_cases hn : find_issues B 32 = []
  · rw [if_pos hn]
    intro j
    have ho := (find_issues_nil_iff B).mp hn
    by_contra hcon
    have hp : pattern_at B j = true := by simpa using hcon
    have := occurrences_mem.mpr hp
    rw [ho] at this
    simp at this
  · rw [if_neg hn, build_new_blob_eq, copy_loop_issues_drop8 B 32 hz]
    apply no_pattern_after_header _ _ (be64_bytes_length _)
    · intro x hx
      exact copy_loop_head_zero B _ _ 8 hz x hx
    · intro j
      exact copy_loop_no_pattern B _ (all_issues_of_le B h) _ _ _

theorem occurrences_eq_nil_of_no_pattern (B : List Byte)
    (h : ∀ j, pattern_at B j = false) : occurrences B = [] := by
  apply List.eq_nil_iff_forall_not_mem.mpr
  intro p hp
  have := occurrences_mem.mp hp
  rw [h p] at this
  simp at this

theorem be32_value (b0 b1 b2 b3 : Byte) :
    ((b0.val <<< 24) ||| (b1.val <<< 16) ||| (b2.val <<< 8) ||| b3.val) =
      b0.val * 2 ^ 24 + b1.val * 2 ^ 16 + b2.val * 2 ^ 8 + b3.val := by
  have h0 := b0.isLt; have h1 := b1.isLt; have h2 := b2.isLt; have h3 := b3.isLt
  simp only [Nat.shiftLeft_eq]
  rw [or_eq_add_of_dvd 24 (x := b0.val * 2 ^ 24) (y := b1.val * 2 ^ 16) (by omega) (by omega),
    or_eq_add_of_dvd 16 (y := b2.val * 2 ^ 8) (by omega) (by omega),
    or_eq_add_of_dvd 8 (y := b3.val) (by omega) (by omega)]

theorem version_3_first_byte (B : List Byte) (h : read_be32 B 8 = some 3) :
    B[8]? = some 0 := by
  unfold read_be32 at h
  split at h
  · rename_i b0 b1 b2 b3 e0 e1 e2 e3
    rw [Option.some.injEq, be32_value] at h
    have h0 := b0.isLt; have h1 := b1.isLt; have h2 := b2.isLt; have h3 := b3.isLt
    have : b0 = 0 := Fin.ext (by show b0.val = 0; omega)
    rw [e0, this]
  · exact absurd h (by simp)

theorem repair_changes_of_pattern (R : List Byte) (h8 : 8 ≤ R.length) (q : Nat)
    (hq : pattern_at R q = true) : repair R ≠ R := by
  have hne : find_issues R 32 ≠ [] := by
    intro h
    have := (find_issues_nil_iff R).mp h
    have hm := occurrences_mem.mpr hq
    rw [this] at hm
    simp at hm
  intro heq
  have hl := congrArg List.length heq
  rw [repair_eq, if_neg hne, build_new_blob_length R 32 h8] at hl
  have : (find_issues R 32).length ≠ 0 := fun h => hne (List.length_eq_zero.mp h)
  omega

theorem repair_twice_of_many (B : List Byte) (h : 32 < (occurrences B).length) :
    repair (repair B) ≠ repair B := by
  have hsplit : (occurrences B).take 32 ++ (occurrences B).drop 32 = occurrences B :=
    List.take_append_drop 32 _
  have hpw := occurrences_pairwise B
  rw [← hsplit, List.pairwise_append] at hpw
  have hdrop := List.drop_eq_getElem_cons h
  have hmem33 : (occurrences B)[32] ∈ (occurrences B).drop 32 := by
    rw [hdrop]; exact List.mem_cons_self _ _
  have hbefore : ∀ p ∈ (occurrences B).take 32, p + 17 ≤ (occurrences B)[32] :=
    fun p hp => hpw.2.2 p hp _ hmem33
  have hlen : ((occurrences B).take 32).length = 32 := by
    rw [List.length_take]; omega
  have hp33 : pattern_at B (occurrences B)[32] = true :=
    occurrences_mem.mp (List.getElem_mem _)
  have hL := pattern_at_bound hp33
  generalize (occurrences B)[32] = p33 at hbefore hp33 hL
  have h17 : 17 ≤ p33 := by
    have hne : (occurrences B).take 32 ≠ [] := by
      intro e; rw [e] at hlen; simp at hlen
    obtain ⟨a, ha⟩ := List.exists_mem_of_ne_nil _ hne
    have := hbefore a ha
    omega
  have hpos := find_issues_positions B 32
  have hilen : (find_issues B 32).length = 32 := by
    rw [find_issues_length]; omega
  have hne : find_issues B 32 ≠ [] := by
    intro e; rw [e] at hilen; simp at hilen
  have key := copy_loop_drop B (find_issues B 32) (issues_pairwise B 32) p33 (by omega)
    (fun p hp hh => by rw [hpos] at hp; have := hbefore p hp; omega) B.length 0 (by omega)
    (by omega)
  rw [count_between_all (fun p hp => by rw [hpos] at hp; have := hbefore p hp; omega),
    List.length_map, hilen, Nat.sub_zero,
    copy_loop_no_issue B (find_issues B 32) p33 (fun r hr => by
      by_contra hcon
      have hat : at_issue (find_issues B 32) r = true := by simpa using hcon
      have hm := (at_issue_iff _ _).mp hat
      rw [hpos] at hm
      have := hbefore r hm
      omega) _ p33 (by omega) (by omega)] at key
  have hR : repair B = build_new_blob B (find_issues B 32) := by
    rw [repair_eq, if_neg hne]
  have hdropR : (repair B).drop (p33 + 4 * 32) = B.drop p33 := by
    rw [hR, build_new_blob_drop B 32 _ (by omega)]
    exact key
  have hpat : pattern_at (repair B) (p33 + 4 * 32) = true := by
    have := pattern_at_drop (repair B) (p33 + 4 * 32) 0
    rw [Nat.add_zero] at this
    rw [← this, hdropR, pattern_at_drop, Nat.add_zero]
    exact hp33
  have hRlen : 8 ≤ (repair B).length := by
    rw [repair_length]; omega
  exact repair_changes_of_pattern (repair B) hRlen _ hpat

/-- C4 (as amended). For every well-formed blob in which the sentinel occurs at
most 32 times, the output of the repair contains no occurrence of the sentinel,
`find_issues` reports nothing on it, and repairing it again returns it byte for
byte. -/
theorem idempotence_capped (B : List Byte) (hwf : well_formed B)
    (h32 : (occurrences B).length ≤ 32) :
    occurrences (repair B) = [] ∧ find_issues (repair B) 32 = [] ∧
      repair (repair B) = repair B := by
  have hz := version_3_first_byte B hwf.2.2.1
  have ho := occurrences_eq_nil_of_no_pattern _ (repair_no_pattern B hz h32)
  have hn := (find_issues_nil_iff (repair B)).mpr ho
  refine ⟨ho, hn, ?_⟩
  rw [repair_eq (repair B), if_pos hn]

/-! ## The parser against the layout -/

theorem read_be16_eq_none {B : List Byte} {o : Nat} (h : B.length < o + 2) :
    read_be16 B o = none := by
  unfold read_be16
  have : B[o + 1]? = none := List.getElem?_eq_none (by omega)
  rw [this]
  cases B[o]? <;> rfl

theorem read_be16_eq_some {B : List Byte} {o : Nat} (h : o + 2 ≤ B.length) :
    ∃ v, read_be16 B o = some v := by
  unfold read_be16
  rw [List.getElem?_eq_getElem (by omega : o < B.length),
    List.getElem?_eq_getElem (by omega : o + 1 < B.length)]
  exact ⟨_, rfl⟩

theorem read_be16_bound {B : List Byte} {o v : Nat} (h : read_be16 B o = some v) :
    o + 2 ≤ B.length := by
  by_contra hcon
  rw [read_be16_eq_none (by omega)] at h
  exact absurd h (by simp)

theorem skip_string_some {B : List Byte} {o o' : Nat} (h : skip_string B o = some o') :
    ∃ k, read_be16 B o = some k ∧ o' = o + 2 + k ∧ o + 2 + k ≤ B.length := by
  unfold skip_string at h
  cases hr : read_be16 B o with
  | none => rw [hr] at h; exact absurd h (by simp)
  | some k =>
    rw [hr] at h
    simp only at h
    by_cases hk : o + 2 + k ≤ B.length
    · rw [if_pos hk] at h
      exact ⟨k, rfl, (Option.some.inj h).symm, hk⟩
    · rw [if_neg hk] at h
      exact absurd h (by simp)

theorem parse_tail_eq (B name : List Byte) (o3 : Nat) :
    parse_tail B name o3 =
      match (skip_string B o3).bind
        (fun o4 => if o4 + 8 ≤ B.length then some (o4 + 6) else none) with
      | some o5 => .next ⟨o3, name⟩ (o5 + 2 + (read_be16 B o5).getD 0)
      | none => .stop false := by
  unfold parse_tail skip_string
  by_cases h1 : o3 + 2 > B.length
  · rw [read_be16_eq_none (by omega)]
    simp [h1]
  · obtain ⟨k, hk⟩ := read_be16_eq_some (by omega : o3 + 2 ≤ B.length)
    rw [hk]
    simp only [h1, if_false]
    by_cases h2 : o3 + 2 + k > B.length
    · simp [h2, Nat.not_le.mpr h2]
    · have h2' : o3 + 2 + k ≤ B.length := by omega
      simp only [h2, if_false, h2', if_true, Option.some_bind]
      by_cases h3 : o3 + 2 + k + (1 + 1 + 4) + 2 > B.length
      · have : ¬ (o3 + 2 + k + 8 ≤ B.length) := by omega
        simp [h3, this]
      · have h3' : o3 + 2 + k + 8 ≤ B.length := by omega
        obtain ⟨k2, hk2⟩ := read_be16_eq_some (by omega : o3 + 2 + k + (1 + 1 + 4) + 2 ≤ B.length)
        simp only [h3, if_false, hk2]
        simp [h3', hk2]

theorem skip_string_of_read {B : List Byte} {o k : Nat} (h : read_be16 B o = some k) :
    skip_string B o = if o + 2 + k ≤ B.length then some (o + 2 + k) else none := by
  unfold skip_string
  rw [h]

theorem skip_string_none_of_short {B : List Byte} {o : Nat} (h : B.length < o + 2) :
    skip_string B o = none := by
  unfold skip_string
  rw [read_be16_eq_none h]

theorem parse_record_eq (B : List Byte) (o : Nat) :
    parse_record B o =
      match accept_state_offset B o with
      | some o3 => parse_tail B (reported_name B o) o3
      | none => .stop (overread_at B o) := by
  unfold parse_record
  by_cases h1 : o + 2 > B.length
  · have hs := skip_string_none_of_short (B := B) (o := o) (by omega)
    simp [h1, accept_state_offset, has_name_offset, overread_at, hs]
  · obtain ⟨k1, hk1⟩ := read_be16_eq_some (by omega : o + 2 ≤ B.length)
    have hs1 := skip_string_of_read hk1
    simp only [h1, if_false, hk1]
    by_cases h2 : o + 2 + k1 > B.length
    · rw [if_neg (by omega)] at hs1
      simp [h2, accept_state_offset, has_name_offset, overread_at, hs1]
    · rw [if_pos (by omega)] at hs1
      simp only [h2, if_false]
      by_cases h3 : o + 2 + k1 + 2 > B.length
      · have hr := read_be16_eq_none (B := B) (o := o + 2 + k1) (by omega)
        have hs2 := skip_string_none_of_short (B := B) (o := o + 2 + k1) (by omega)
        simp [hr, accept_state_offset, has_name_offset, overread_at, hs1, hs2]
        omega
      · obtain ⟨k2, hk2⟩ := read_be16_eq_some (by omega : o + 2 + k1 + 2 ≤ B.length)
        have hs2 := skip_string_of_read hk2
        have hov : overread_at B o = false := by
          simp [overread_at, hs1]; omega
        simp only [hk2]
        by_cases h4 : o + 2 + k1 + 2 + k2 + 1 > B.length
        · have hh : has_name_offset B o = none := by
            unfold has_name_offset
            rw [hs1, Option.some_bind, hs2]
            by_cases h5 : o + 2 + k1 + 2 + k2 ≤ B.length
            · rw [if_pos h5, Option.some_bind, if_neg (by omega)]
            · rw [if_neg h5]; rfl
          simp [h4, accept_state_offset, hh, hov]
        · have hh : has_name_offset B o = some (o + 2 + k1 + 2 + k2) := by
            unfold has_name_offset
            rw [hs1, Option.some_bind, hs2, if_pos (by omega), Option.some_bind,
              if_pos (by omega)]
          have hf := List.getElem?_eq_getElem (by omega : o + 2 + k1 + 2 + k2 < B.length)
          generalize B[o + 2 + k1 + 2 + k2] = flag at hf
          simp only [h4, if_false, hf]
          by_cases h5 : flag = 0
          · subst h5
            have hn : reported_name B o = unknown_name := by
              unfold reported_name
              rw [hh]
              simp [hf]
            simp [accept_state_offset, hh, hf, hn]
          · have hb : (flag != 0) = true := by simpa using h5
            simp only [hb, if_true]
            by_cases h6 : o + 2 + k1 + 2 + k2 + 1 + 2 > B.length
            · have hs3 := skip_string_none_of_short (B := B) (o := o + 2 + k1 + 2 + k2 + 1)
                (by omega)
              simp [h6, accept_state_offset, hh, hf, h5, hs3, hov]
            · obtain ⟨n, hn⟩ := read_be16_eq_some
                (by omega : o + 2 + k1 + 2 + k2 + 1 + 2 ≤ B.length)
              have hs3 := skip_string_of_read hn
              simp only [h6, if_false, hn]
              by_cases h7 : o + 2 + k1 + 2 + k2 + 1 + 2 + n > B.length
              · rw [if_neg (by omega)] at hs3
                simp [h7, accept_state_offset, hh, hf, h5, hs3, hov]
              · rw [if_pos (by omega)] at hs3
                have hname : reported_name B o =
                    c_string ((B.drop (o + 2 + k1 + 2 + k2 + 1 + 2)).take
                      (if n < 255 then n else 255)) := by
                  unfold reported_name
                  rw [hh]
                  have e : (if n < 255 then n else 255) = min n 255 := by
                    by_cases hlt : n < 255
                    · rw [if_pos hlt]; omega
                    · rw [if_neg hlt]; omega
                  have hne : ¬ (some flag = some (0 : Byte)) := by
                    intro hc; exact h5 (Option.some.inj hc)
                  simp only [hf, hne, if_false, hn, Option.getD_some, e]
                simp only [h7, if_false, accept_state_offset, hh, Option.some_bind, hf, h5,
                  hs3, hname]

theorem overread_at_of_accept {B : List Byte} {o o3 : Nat}
    (h : accept_state_offset B o = some o3) : overread_at B o = false := by
  unfold accept_state_offset has_name_offset at h
  unfold overread_at
  cases hs1 : skip_string B o with
  | none => rfl
  | some o1 =>
    rw [hs1, Option.some_bind] at h
    cases hs2 : skip_string B o1 with
    | none => rw [hs2] at h; exact absurd h (by simp)
    | some o2 =>
      obtain ⟨k, hk, _, _⟩ := skip_string_some hs2
      have := read_be16_bound hk
      simp only [decide_eq_false_iff_not]
      omega

theorem parse_record_stop {B : List Byte} {o : Nat}
    (h : connection_type_offset B o = none) :
    parse_record B o = .stop (overread_at B o) := by
  rw [parse_record_eq]
  cases ha : accept_state_offset B o with
  | none => rfl
  | some o3 =>
    simp only
    rw [parse_tail_eq]
    unfold connection_type_offset at h
    rw [ha, Option.some_bind] at h
    rw [h, overread_at_of_accept ha]

theorem parse_record_next {B : List Byte} {o o5 : Nat}
    (h : connection_type_offset B o = some o5) :
    ∃ o3, accept_state_offset B o = some o3 ∧ o3 + 8 ≤ o5 ∧
      parse_record B o =
        .next ⟨o3, reported_name B o⟩ (o5 + 2 + (read_be16 B o5).getD 0) := by
  unfold connection_type_offset at h
  cases ha : accept_state_offset B o with
  | none => rw [ha] at h; exact absurd h (by simp)
  | some o3 =>
    rw [ha, Option.some_bind] at h
    refine ⟨o3, rfl, ?_, ?_⟩
    · cases hs : skip_string B o3 with
      | none => rw [hs] at h; exact absurd h (by simp)
      | some o4 =>
        rw [hs, Option.some_bind] at h
        obtain ⟨k, _, e, _⟩ := skip_string_some hs
        by_cases hc : o4 + 8 ≤ B.length
        · rw [if_pos hc] at h
          have := Option.some.inj h
          omega
        · rw [if_neg hc] at h
          exact absurd h (by simp)
    · rw [parse_record_eq, ha]
      simp only
      rw [parse_tail_eq, h]

theorem parse_record_inv {B : List Byte} {o o' : Nat} {d : device_issue_t}
    (h : parse_record B o = .next d o') :
    accept_state_offset B o = some d.position ∧ d.device_name = reported_name B o ∧
      d.position + 10 ≤ o' := by
  cases hc : connection_type_offset B o with
  | none =>
    rw [parse_record_stop hc] at h
    exact absurd h (by simp)
  | some o5 =>
    obtain ⟨o3, ha, hle, hp⟩ := parse_record_next hc
    rw [hp] at h
    simp only [record_step.next.injEq] at h
    obtain ⟨hd, ho⟩ := h
    subst hd
    exact ⟨ha, rfl, by simp only; omega⟩

theorem accept_state_offset_ge {B : List Byte} {o o3 : Nat}
    (h : accept_state_offset B o = some o3) : o + 5 ≤ o3 := by
  unfold accept_state_offset has_name_offset at h
  cases hs1 : skip_string B o with
  | none => rw [hs1] at h; exact absurd h (by simp)
  | some o1 =>
    rw [hs1, Option.some_bind] at h
    obtain ⟨k1, _, e1, _⟩ := skip_string_some hs1
    cases hs2 : skip_string B o1 with
    | none => rw [hs2] at h; exact absurd h (by simp)
    | some o2 =>
      rw [hs2, Option.some_bind] at h
      obtain ⟨k2, _, e2, _⟩ := skip_string_some hs2
      by_cases hlt : o2 < B.length
      · rw [if_pos hlt, Option.some_bind, List.getElem?_eq_getElem hlt, Option.some_bind] at h
        by_cases hf : B[o2] = 0
        · rw [if_pos hf] at h
          have := Option.some.inj h
          omega
        · rw [if_neg hf] at h
          obtain ⟨k3, _, e3, _⟩ := skip_string_some h
          omega
      · rw [if_neg hlt] at h
        exact absurd h (by simp)

/-- What holds of an entry the parser has stored: it stands for a record. -/
theorem parse_loop_devices (B : List Byte) :
    ∀ n o devs,
      devs.Pairwise (fun a b : device_issue_t => a.position < b.position) →
      (∀ d ∈ devs, d.position < o) →
      (∀ d ∈ devs, ∃ o1, accept_state_offset B o1 = some d.position ∧
        d.device_name = reported_name B o1) →
      ((parse_loop B n o devs).devices.Pairwise
          (fun a b : device_issue_t => a.position < b.position)) ∧
        ∀ d ∈ (parse_loop B n o devs).devices, ∃ o1,
          accept_state_offset B o1 = some d.position ∧ d.device_name = reported_name B o1 := by
  intro n
  induction n with
  | zero => intro o devs h1 _ h3; exact ⟨h1, h3⟩
  | succ n ih =>
    intro o devs h1 h2 h3
    unfold parse_loop
    cases hp : parse_record B o with
    | stop ov => exact ⟨h1, h3⟩
    | next d o' =>
      simp only
      obtain ⟨ha, hn, ho⟩ := parse_record_inv hp
      have hge := accept_state_offset_ge ha
      apply ih
      · rw [List.pairwise_append]
        refine ⟨h1, List.pairwise_singleton _ _, ?_⟩
        intro a ha' b hb
        rw [List.mem_singleton] at hb
        subst hb
        have := h2 a ha'
        omega
      · intro x hx
        rcases List.mem_append.mp hx with hx | hx
        · have := h2 x hx; omega
        · rw [List.mem_singleton] at hx
          subst hx
          omega
      · intro x hx
        rcases List.mem_append.mp hx with hx | hx
        · exact h3 x hx
        · rw [List.mem_singleton] at hx
          subst hx
          exact ⟨o, ha, hn⟩

theorem parse_device_names_devices (B : List Byte) (m : Nat) :
    ((parse_device_names B m).devices.Pairwise
        (fun a b : device_issue_t => a.position < b.position)) ∧
      ∀ d ∈ (parse_device_names B m).devices, ∃ o1,
        accept_state_offset B o1 = some d.position ∧ d.device_name = reported_name B o1 := by
  unfold parse_device_names
  by_cases h : B.length < 16
  · rw [if_pos h]
    exact ⟨List.Pairwise.nil, fun d hd => absurd hd (List.not_mem_nil _)⟩
  · rw [if_neg h]
    cases hr : read_be32 B 12 with
    | none => exact ⟨List.Pairwise.nil, fun d hd => absurd hd (List.not_mem_nil _)⟩
    | some N =>
      exact parse_loop_devices B _ 16 [] List.Pairwise.nil
        (fun d hd => absurd hd (List.not_mem_nil _))
        (fun d hd => absurd hd (List.not_mem_nil _))

theorem find_position_unique (l : List device_issue_t)
    (hpw : l.Pairwise (fun a b : device_issue_t => a.position < b.position))
    (d : device_issue_t) (hd : d ∈ l) :
    l.find? (fun x => x.position == d.position) = some d := by
  induction l with
  | nil => exact absurd hd (List.not_mem_nil _)
  | cons a t ih =>
    rw [List.pairwise_cons] at hpw
    rcases List.mem_cons.mp hd with e | hmem
    · subst e
      simp
    · have hlt := hpw.1 d hmem
      have hne : (a.position == d.position) = false := by
        simp only [beq_eq_false_iff_ne, ne_eq]
        omega
      rw [List.find?_cons, hne]
      exact ih hpw.2 hmem

theorem matching_name_of_mem (l : List device_issue_t)
    (hpw : l.Pairwise (fun a b : device_issue_t => a.position < b.position))
    (d : device_issue_t) (hd : d ∈ l) : matching_name l d.position = d.device_name := by
  unfold matching_name
  rw [find_position_unique l hpw d hd]

theorem matching_name_of_not_mem (l : List device_issue_t) (pos : Nat)
    (h : ∀ d ∈ l, d.position ≠ pos) : matching_name l pos = unknown_name := by
  unfold matching_name
  have : l.find? (fun x => x.position == pos) = none := by
    rw [List.find?_eq_none]
    intro x hx
    simpa using h x hx
  rw [this]

/-! ## The layout under concatenation -/

theorem read_be16_append_right (A C : List Byte) (o : Nat) :
    read_be16 (A ++ C) (A.length + o) = read_be16 C o := by
  unfold read_be16
  rw [Nat.add_assoc, List.getElem?_append_right (by omega), List.getElem?_append_right (by omega)]
  simp

theorem skip_string_append_right (A C : List Byte) (o : Nat) :
    skip_string (A ++ C) (A.length + o) = (skip_string C o).map (fun x => A.length + x) := by
  unfold skip_string
  rw [read_be16_append_right]
  cases read_be16 C o with
  | none => rfl
  | some k =>
    simp only [List.length_append]
    by_cases h : o + 2 + k ≤ C.length
    · rw [if_pos h, if_pos (by omega)]
      simp only [Option.map_some', Option.some.injEq]
      omega
    · rw [if_neg h, if_neg (by omega)]
      rfl

theorem has_name_offset_append_right (A C : List Byte) (o : Nat) :
    has_name_offset (A ++ C) (A.length + o) =
      (has_name_offset C o).map (fun x => A.length + x) := by
  unfold has_name_offset
  rw [skip_string_append_right]
  cases skip_string C o with
  | none => rfl
  | some o1 =>
    simp only [Option.map_some', Option.some_bind]
    rw [skip_string_append_right]
    cases skip_string C o1 with
    | none => rfl
    | some o2 =>
      simp only [Option.map_some', Option.some_bind, List.length_append]
      by_cases h : o2 < C.length
      · rw [if_pos h, if_pos (by omega)]; rfl
      · rw [if_neg h, if_neg (by omega)]; rfl

theorem accept_state_offset_append_right (A C : List Byte) (o : Nat) :
    accept_state_offset (A ++ C) (A.length + o) =
      (accept_state_offset C o).map (fun x => A.length + x) := by
  unfold accept_state_offset
  rw [has_name_offset_append_right]
  cases has_name_offset C o with
  | none => rfl
  | some o2 =>
    simp only [Option.map_some', Option.some_bind]
    rw [List.getElem?_append_right (by omega)]
    simp only [Nat.add_sub_cancel_left]
    cases C[o2]? with
    | none => rfl
    | some flag =>
      simp only [Option.some_bind]
      by_cases hf : flag = 0
      · rw [if_pos hf, if_pos hf]; rfl
      · rw [if_neg hf, if_neg hf, Nat.add_assoc, skip_string_append_right]

theorem connection_type_offset_append_right (A C : List Byte) (o : Nat) :
    connection_type_offset (A ++ C) (A.length + o) =
      (connection_type_offset C o).map (fun x => A.length + x) := by
  unfold connection_type_offset
  rw [accept_state_offset_append_right]
  cases accept_state_offset C o with
  | none => rfl
  | some o3 =>
    simp only [Option.map_some', Option.some_bind]
    rw [skip_string_append_right]
    cases skip_string C o3 with
    | none => rfl
    | some o4 =>
      simp only [Option.map_some', Option.some_bind, List.length_append]
      by_cases h : o4 + 8 ≤ C.length
      · rw [if_pos h, if_pos (by omega)]; rfl
      · rw [if_neg h, if_neg (by omega)]; rfl

theorem record_end_append_right (A C : List Byte) (o : Nat) :
    record_end (A ++ C) (A.length + o) = (record_end C o).map (fun x => A.length + x) := by
  unfold record_end
  rw [connection_type_offset_append_right]
  cases connection_type_offset C o with
  | none => rfl
  | some o5 =>
    simp only [Option.map_some', Option.some_bind]
    rw [skip_string_append_right]

theorem records_end_append_right (A C : List Byte) :
    ∀ n o, records_end (A ++ C) n (A.length + o) =
      (records_end C n o).map (fun x => A.length + x) := by
  intro n
  induction n with
  | zero => intro o; rfl
  | succ n ih =>
    intro o
    rw [records_end, records_end, record_end_append_right]
    cases record_end C o with
    | none => rfl
    | some o' =>
      simp only [Option.map_some', Option.some_bind]
      exact ih o'

theorem read_be16_append_left (R C : List Byte) (o : Nat) (h : o + 2 ≤ R.length) :
    read_be16 (R ++ C) o = read_be16 R o := by
  unfold read_be16
  rw [List.getElem?_append_left (by omega), List.getElem?_append_left (by omega)]

theorem skip_string_append_left {R : List Byte} (C : List Byte) {o o' : Nat}
    (h : skip_string R o = some o') : skip_string (R ++ C) o = some o' := by
  obtain ⟨k, hk, e, hle⟩ := skip_string_some h
  rw [skip_string_of_read (by rw [read_be16_append_left R C o (read_be16_bound hk)]; exact hk),
    if_pos (by rw [List.length_append]; omega), e]

theorem has_name_offset_append_left {R : List Byte} (C : List Byte) {o o2 : Nat}
    (h : has_name_offset R o = some o2) :
    has_name_offset (R ++ C) o = some o2 ∧ o2 < R.length := by
  unfold has_name_offset at h ⊢
  cases h1 : skip_string R o with
  | none => rw [h1] at h; exact absurd h (by simp)
  | some o1 =>
    rw [h1, Option.some_bind] at h
    rw [skip_string_append_left C h1, Option.some_bind]
    cases h2 : skip_string R o1 with
    | none => rw [h2] at h; exact absurd h (by simp)
    | some x =>
      rw [h2, Option.some_bind] at h
      rw [skip_string_append_left C h2, Option.some_bind]
      by_cases hlt : x < R.length
      · rw [if_pos hlt] at h
        rw [if_pos (by rw [List.length_append]; omega)]
        have := Option.some.inj h
        subst this
        exact ⟨rfl, hlt⟩
      · rw [if_neg hlt] at h
        exact absurd h (by simp)

theorem accept_state_offset_append_left {R : List Byte} (C : List Byte) {o o3 : Nat}
    (h : accept_state_offset R o = some o3) : accept_state_offset (R ++ C) o = some o3 := by
  unfold accept_state_offset at h ⊢
  cases h1 : has_name_offset R o with
  | none => rw [h1] at h; exact absurd h (by simp)
  | some o2 =>
    rw [h1, Option.some_bind] at h
    obtain ⟨e, hlt⟩ := has_name_offset_append_left C h1
    rw [e, Option.some_bind, List.getElem?_append_left hlt]
    cases hf : R[o2]? with
    | none => rw [hf] at h; exact absurd h (by simp)
    | some flag =>
      rw [hf, Option.some_bind] at h
      rw [Option.some_bind]
      by_cases hz : flag = 0
      · rw [if_pos hz] at h ⊢; exact h
      · rw [if_neg hz] at h ⊢; exact skip_string_append_left C h

theorem record_end_append_left {R : List Byte} (C : List Byte) {o o' : Nat}
    (h : record_end R o = some o') : record_end (R ++ C) o = some o' := by
  unfold record_end connection_type_offset at h ⊢
  cases h1 : accept_state_offset R o with
  | none => rw [h1] at h; exact absurd h (by simp)
  | some o3 =>
    rw [h1, Option.some_bind] at h
    rw [accept_state_offset_append_left C h1, Option.some_bind]
    cases h2 : skip_string R o3 with
    | none => rw [h2] at h; exact absurd h (by simp)
    | some o4 =>
      rw [h2, Option.some_bind] at h
      rw [skip_string_append_left C h2, Option.some_bind]
      by_cases hle : o4 + 8 ≤ R.length
      · rw [if_pos hle, Option.some_bind] at h
        rw [if_pos (by rw [List.length_append]; omega), Option.some_bind]
        exact skip_string_append_left C h
      · rw [if_neg hle] at h
        exact absurd h (by simp)

theorem records_end_replicate (r : List Byte) (h : record_end r 0 = some r.length) :
    ∀ n, records_end (List.replicate n r).flatten n 0 = some (n * r.length) := by
  intro n
  induction n with
  | zero => simp [records_end]
  | succ n ih =>
    rw [List.replicate_succ, List.flatten_cons, records_end,
      record_end_append_left _ h, Option.some_bind]
    have := records_end_append_right r (List.replicate n r).flatten n 0
    rw [Nat.add_zero] at this
    rw [this, ih]
    simp only [Option.map_some', Option.some.injEq]
    rw [Nat.succ_mul]
    omega

theorem pattern_at_append_left {R : List Byte} (C : List Byte) {j : Nat}
    (h : pattern_at R j = true) : pattern_at (R ++ C) j = true := by
  have hb := pattern_at_bound h
  unfold pattern_at at h ⊢
  rw [List.drop_append_of_le_length (by omega),
    List.take_append_of_le_length (by rw [List.length_drop]; unfold PATTERN_NATIVE_LEN; omega)]
  exact h

theorem pattern_at_replicate (r : List Byte) (q : Nat) (h : pattern_at r q = true) :
    ∀ n k, k < n → pattern_at (List.replicate n r).flatten (k * r.length + q) = true := by
  intro n
  induction n with
  | zero => intro k hk; omega
  | succ n ih =>
    intro k hk
    rw [List.replicate_succ, List.flatten_cons]
    cases k with
    | zero =>
      rw [Nat.zero_mul, Nat.zero_add]
      exact pattern_at_append_left _ h
    | succ k =>
      rw [pattern_at_append_ge _ _ _ (by rw [Nat.succ_mul]; omega)]
      have e : (k + 1) * r.length + q - r.length = k * r.length + q := by
        rw [Nat.succ_mul]; omega
      rw [e]
      exact ih k (by omega)

/-! ## Complete records, and the blob of 33 devices -/

theorem record_end_parse {B : List Byte} {o o' : Nat} (h : record_end B o = some o') :
    ∃ o3, accept_state_offset B o = some o3 ∧
      parse_record B o = .next ⟨o3, reported_name B o⟩ o' := by
  unfold record_end at h
  cases hc : connection_type_offset B o with
  | none => rw [hc] at h; exact absurd h (by simp)
  | some o5 =>
    rw [hc, Option.some_bind] at h
    obtain ⟨o3, ha, _, hp⟩ := parse_record_next hc
    obtain ⟨k, hk, e, _⟩ := skip_string_some h
    refine ⟨o3, ha, ?_⟩
    rw [hp, hk, e]
    rfl

theorem parse_loop_intact (B : List Byte) :
    ∀ j m o0 o devs, records_end B j o0 = some o →
      parse_loop B (j + m) o0 devs = parse_loop B m o (devs ++ record_devices B j o0) := by
  intro j
  induction j with
  | zero =>
    intro m o0 o devs h
    simp only [records_end, Option.some.injEq] at h
    subst h
    simp [record_devices]
  | succ j ih =>
    intro m o0 o devs h
    rw [records_end] at h
    cases hr : record_end B o0 with
    | none => rw [hr] at h; exact absurd h (by simp)
    | some o' =>
      rw [hr, Option.some_bind] at h
      obtain ⟨o3, ha, hp⟩ := record_end_parse hr
      have e : j + 1 + m = (j + m) + 1 := by omega
      rw [e, parse_loop, hp]
      simp only
      rw [ih m o' o _ h, record_devices, ha, hr]
      simp

theorem record_devices_length (B : List Byte) :
    ∀ j o0 o, records_end B j o0 = some o → (record_devices B j o0).length = j := by
  intro j
  induction j with
  | zero => intro o0 o _; rfl
  | succ j ih =>
    intro o0 o h
    rw [records_end] at h
    cases hr : record_end B o0 with
    | none => rw [hr] at h; exact absurd h (by simp)
    | some o' =>
      rw [hr, Option.some_bind] at h
      obtain ⟨o3, ha, _⟩ := record_end_parse hr
      rw [record_devices, ha, hr]
      simp only [List.length_cons]
      rw [ih o' o h]

theorem records_end_split (B : List Byte) :
    ∀ j r o0 o, records_end B (j + r) o0 = some o → ∃ o1, records_end B j o0 = some o1 := by
  intro j
  induction j with
  | zero => intro r o0 o _; exact ⟨o0, rfl⟩
  | succ j ih =>
    intro r o0 o h
    have e : j + 1 + r = (j + r) + 1 := by omega
    rw [e, records_end] at h
    cases hr : record_end B o0 with
    | none => rw [hr] at h; exact absurd h (by simp)
    | some o' =>
      rw [hr, Option.some_bind] at h
      obtain ⟨o1, h1⟩ := ih r o' o h
      exact ⟨o1, by rw [records_end, hr, Option.some_bind, h1]⟩

theorem fix_database_found (B : List Byte) (h8 : 8 ≤ B.length) (hocc : occurrences B ≠ [])
    (nb bk : Bool) (hb : nb = true ∨ bk = true) :
    fix_database ⟨false, false, true, nb⟩ ⟨true, true, true, some B, bk, true, true⟩ =
      ⟨0, some (build_new_blob B (find_issues B 32)),
        some (build_new_blob B (find_issues B 32))⟩ := by
  have hne : find_issues B 32 ≠ [] := fun h => hocc ((find_issues_nil_iff B).mp h)
  have hl : (find_issues B 32).length ≠ 0 := fun h => hne (List.length_eq_zero.mp h)
  have h8' : ¬ B.length < 8 := by omega
  rcases hb with hb | hb <;> subst hb <;> simp [fix_database, h8', hl]

theorem with_checksum_valid (p : List Byte) :
    read_be64 (with_checksum p) = some (calculate_crc32 ((with_checksum p).drop 8)) := by
  unfold with_checksum
  have e : (be64_bytes (calculate_crc32 p) ++ p).drop 8 = p := by
    exact List.drop_left' (be64_bytes_length _)
  rw [e]
  exact read_be64_bytes _ _ (lt_trans (calculate_crc32_lt _) (by norm_num))

theorem occurrences_length_ge (B : List Byte) (l : List Nat) (hn : l.Nodup)
    (hp : ∀ p ∈ l, pattern_at B p = true) : l.length ≤ (occurrences B).length := by
  apply List.Subperm.length_le
  apply List.subperm_of_subset hn
  intro p hpm
  exact occurrences_mem.mpr (hp p hpm)

theorem length_flatten_replicate (r : List Byte) (n : Nat) :
    (List.replicate n r).flatten.length = n * r.length := by
  induction n with
  | zero => simp
  | succ n ih =>
    rw [List.replicate_succ, List.flatten_cons, List.length_append, ih, Nat.succ_mul]
    omega

theorem thirty_three_split :
    thirty_three_devices =
      (be64_bytes (calculate_crc32 (device_list 33 (List.replicate 33 small_record).flatten)) ++
        [0, 0, 0, 3, 0, 0, 0, 33]) ++ (List.replicate 33 small_record).flatten := by
  unfold thirty_three_devices with_checksum device_list
  rw [List.append_assoc]

theorem thirty_three_length : thirty_three_devices.length = 1006 := by
  rw [thirty_three_split, List.length_append, List.length_append, be64_bytes_length,
    length_flatten_replicate]
  rfl

theorem thirty_three_pattern (k : Nat) (hk : k < 33) :
    pattern_at thirty_three_devices (21 + 30 * k) = true := by
  rw [thirty_three_split, pattern_at_append_ge _ _ _ (by
    rw [List.length_append, be64_bytes_length]
    simp only [List.length_cons, List.length_nil]
    omega)]
  have h := pattern_at_replicate small_record 5 (by decide!) 33 k hk
  have e : 21 + 30 * k - (be64_bytes (calculate_crc32
      (device_list 33 (List.replicate 33 small_record).flatten)) ++
        [0, 0, 0, 3, 0, 0, 0, 33]).length = k * small_record.length + 5 := by
    rw [List.length_append, be64_bytes_length]
    simp only [small_record, PATTERN_NATIVE_SELECTED, List.length_cons, List.length_nil,
      List.length_append]
    omega
  rw [e]
  exact h

theorem thirty_three_occurrences : 33 ≤ (occurrences thirty_three_devices).length := by
  have hnd : ((List.range 33).map (fun k => 21 + 30 * k)).Nodup := by
    apply List.Nodup.map
    · intro a b hab
      simp only at hab
      omega
    · exact List.nodup_range 33
  have h := occurrences_length_ge thirty_three_devices
    ((List.range 33).map (fun k => 21 + 30 * k)) hnd (by
      intro p hp
      obtain ⟨k, hk, e⟩ := List.mem_map.mp hp
      rw [← e]
      exact thirty_three_pattern k (List.mem_range.mp hk))
  simpa using h

theorem thirty_three_well_formed : well_formed thirty_three_devices := by
  refine ⟨by rw [thirty_three_length]; omega, with_checksum_valid _, ?_, ?_⟩
  · decide!
  · have h12 : read_be32 thirty_three_devices 12 = some 33 := by
      decide!
    rw [h12, Option.some_bind, thirty_three_length]
    rw [thirty_three_split]
    have h := records_end_append_right
      (be64_bytes (calculate_crc32 (device_list 33 (List.replicate 33 small_record).flatten)) ++
        [0, 0, 0, 3, 0, 0, 0, 33]) (List.replicate 33 small_record).flatten 33 0
    have hl : (be64_bytes (calculate_crc32
        (device_list 33 (List.replicate 33 small_record).flatten)) ++
        [0, 0, 0, 3, 0, 0, 0, 33]).length = 16 := by
      rw [List.length_append, be64_bytes_length]
      rfl
    rw [hl] at h
    rw [h, records_end_replicate small_record (by decide!) 33]
    rfl

/-! ## Parser, truncation, healing and names -/

/-- C6 (as amended). For every blob in which the sentinel occurs at most 32
times, every `userAcceptState` offset computed by `parse_device_names` at which
the field is `NATIVE_SELECTED` is among the offsets found by the byte scan of
`find_issues`, and the scan reports only offsets at which the 17 sentinel bytes
stand; in a well-formed blob the offsets computed by the parser are those of
the `userAcceptState` fields of the first `min N 32` records.  The converse
inclusion does not hold: the scan also reports the sentinel where it stands in
another field. -/
theorem parser_offsets_are_scanned (B : List Byte) (h32 : (occurrences B).length ≤ 32) :
    (∀ d ∈ (parse_device_names B 32).devices, pattern_at B d.position = true →
        d.position ∈ (find_issues B 32).map (fun x => x.position)) ∧
      (∀ p ∈ (find_issues B 32).map (fun x => x.position), pattern_at B p = true) ∧
      (well_formed B → ∀ N, read_be32 B 12 = some N →
        (parse_device_names B 32).devices = record_devices B (min N 32) 16) := by
  refine ⟨?_, issues_pattern B 32, ?_⟩
  · intro d _ hp
    rw [find_issues_positions, List.take_of_length_le h32]
    exact occurrences_mem.mpr hp
  · intro hwf N hN
    obtain ⟨h16, _, _, hrec⟩ := hwf
    rw [hN, Option.some_bind] at hrec
    have hsplit : min N 32 + (N - min N 32) = N := by omega
    rw [← hsplit] at hrec
    obtain ⟨o1, h1⟩ := records_end_split B _ _ 16 _ hrec
    unfold parse_device_names
    rw [if_neg (by omega), hN]
    simp only
    have := parse_loop_intact B (min N 32) 0 16 o1 [] h1
    rw [Nat.add_zero] at this
    rw [this]
    simp [parse_loop]

/-- C6 fails as stated: in a well-formed blob with one healthy device whose name
is "NATIVE_SELECTED" the scan reports offset 25, the `name` field, while the one
`userAcceptState` offset the parser computes is 42 and the state there is not
the sentinel; the repair rewrites the name. -/
theorem scan_reports_name_field :
    well_formed healthy_named_native ∧
      (find_issues healthy_named_native 32).map (fun d => d.position) = [25] ∧
      ((parse_device_names healthy_named_native 32).devices.filter
        (fun d => pattern_at healthy_named_native d.position)).map (fun d => d.position) = [] ∧
      (parse_device_names healthy_named_native 32).devices.map (fun d => d.position) = [42] ∧
      (repair healthy_named_native).drop 25 =
        PATTERN_DISCLAIMER_ACCEPTED ++ healthy_named_native.drop 42 := by
  decide!

/-- C8 (as amended). For every blob whose first `j` records are complete and
whose next record, one the parser reaches, overruns the blob at or before the
two length bytes of `lastConnectionType`: the parser stops at that record,
keeps the `j` entries parsed before it and does not count the truncated record.
No structural error is reported and the repair is not refused: the run in fix
mode returns 0, and if the byte scan finds the sentinel it stores the repaired
blob. -/
theorem truncated_record_not_counted (B : List Byte) (N j o : Nat) (h16 : 16 ≤ B.length)
    (hN : read_be32 B 12 = some N) (hj : j < min N 32)
    (hintact : records_end B j 16 = some o) (htrunc : connection_type_offset B o = none) :
    (parse_device_names B 32).devices = record_devices B j 16 ∧
      (parse_device_names B 32).devices.length = j ∧
      (fix_database fix_mode (database B)).exit_code = 0 ∧
      (occurrences B ≠ [] →
        (fix_database fix_mode (database B)).stored =
          some (build_new_blob B (find_issues B 32))) := by
  have hdev : (parse_device_names B 32).devices = record_devices B j 16 := by
    unfold parse_device_names
    rw [if_neg (by omega), hN]
    simp only
    have e : min N 32 = j + ((min N 32 - j - 1) + 1) := by omega
    rw [e, parse_loop_intact B j _ 16 o [] hintact, parse_loop, parse_record_stop htrunc]
    simp
  refine ⟨hdev, ?_, ?_, ?_⟩
  · rw [hdev, record_devices_length B j 16 o hintact]
  · rw [fix_database_fix]
    by_cases hn : find_issues B 32 = []
    · rw [if_pos hn, if_neg (by omega)]
    · rw [if_neg hn]
  · intro hocc
    have := fix_database_found B (by omega) hocc false true (Or.inr rfl)
    unfold fix_mode database
    rw [this]

/-- C8 fails as stated: for one device with `userAcceptState` `NATIVE_SELECTED`
whose `lastConnectionType` declares nine bytes where one is left, the record
overruns the blob, yet the run in fix mode returns 0 and stores a repaired
blob, and the parser returns one entry. -/
theorem truncated_blob_is_repaired :
    record_end truncated_phone 16 = none ∧
      (fix_database fix_mode (database truncated_phone)).exit_code = 0 ∧
      (fix_database fix_mode (database truncated_phone)).stored =
        some (build_new_blob truncated_phone (find_issues truncated_phone 32)) ∧
      (find_issues truncated_phone 32).map (fun d => d.position) = [32] ∧
      (parse_device_names truncated_phone 32).devices.length = 1 := by
  have hocc : occurrences truncated_phone ≠ [] := by
    intro h
    have hm : (32 : Nat) ∈ occurrences truncated_phone := occurrences_mem.mpr (by decide!)
    rw [h] at hm
    exact absurd hm (List.not_mem_nil _)
  have hfix : fix_database fix_mode (database truncated_phone) =
      ⟨0, some (build_new_blob truncated_phone (find_issues truncated_phone 32)),
        some (build_new_blob truncated_phone (find_issues truncated_phone 32))⟩ :=
    fix_database_found truncated_phone (by decide!) hocc false true (Or.inr rfl)
  refine ⟨by decide!, ?_, ?_, by decide!, by decide!⟩
  · rw [hfix]
  · rw [hfix]

/-- C10 (as amended). For every blob and every occurrence reported by
`find_issues`: the sentinel stands at the reported offset and the copy loop
replaces it there; if an entry of the parser has that `userAcceptState` offset,
the reported name is the name of that entry, which is `"unknown"` if the
`hasName` byte of the record is zero and else the first 255 bytes of the `name`
field, cut in front of the first NUL byte among them; if no entry has that
offset, the reported name is `"unknown"`. -/
theorem name_association (B : List Byte) (issue : device_issue_t)
    (h : issue ∈ find_issues B 32) :
    pattern_at B issue.position = true ∧
      at_issue (find_issues B 32) issue.position = true ∧
      (∀ d ∈ (parse_device_names B 32).devices, d.position = issue.position →
        issue.device_name = d.device_name ∧
        ∃ o o2 flag, has_name_offset B o = some o2 ∧ B[o2]? = some flag ∧
          accept_state_offset B o = some issue.position ∧
          (flag = 0 → issue.device_name = unknown_name) ∧
          (flag ≠ 0 → issue.device_name =
            c_string ((B.drop (o2 + 3)).take (min ((read_be16 B (o2 + 1)).getD 0) 255)))) ∧
      ((∀ d ∈ (parse_device_names B 32).devices, d.position ≠ issue.position) →
        issue.device_name = unknown_name) := by
  have hpos : issue.position ∈ (find_issues B 32).map (fun d => d.position) :=
    List.mem_map_of_mem _ h
  have hname : issue.device_name =
      matching_name (parse_device_names B 32).devices issue.position := by
    rw [find_issues_eq] at h
    obtain ⟨p, _, e⟩ := List.mem_map.mp h
    rw [← e]
  obtain ⟨hpw, hrec⟩ := parse_device_names_devices B 32
  refine ⟨issues_pattern B 32 _ hpos, (at_issue_iff _ _).mpr hpos, ?_, ?_⟩
  · intro d hd hdp
    have hn : issue.device_name = d.device_name := by
      rw [hname, ← hdp]
      exact matching_name_of_mem _ hpw d hd
    refine ⟨hn, ?_⟩
    obtain ⟨o, ha, hr⟩ := hrec d hd
    rw [hdp] at ha
    have ha' := ha
    unfold accept_state_offset at ha'
    cases hh : has_name_offset B o with
    | none => rw [hh] at ha'; exact absurd ha' (by simp)
    | some o2 =>
      rw [hh, Option.some_bind] at ha'
      cases hf : B[o2]? with
      | none => rw [hf] at ha'; exact absurd ha' (by simp)
      | some flag =>
        refine ⟨o, o2, flag, hh, hf, ha, ?_, ?_⟩
        · intro h0
          rw [hn, hr]
          unfold reported_name
          rw [hh]
          simp [hf, h0]
        · intro h0
          rw [hn, hr]
          unfold reported_name
          rw [hh]
          have hne : ¬ (some flag = some (0 : Byte)) := fun hc => h0 (Option.some.inj hc)
          simp only [hf, hne, if_false]
  · intro hnone
    rw [hname]
    exact matching_name_of_not_mem _ _ hnone

/-! ## Sample runs -/

/-- The CRC32 of the model on the ASCII digits "123456789" is the check value
`0xCBF43926` of the algorithm zlib implements. -/
theorem crc32_check_value :
    calculate_crc32 [0x31, 0x32, 0x33, 0x34, 0x35, 0x36, 0x37, 0x38, 0x39] = 0xCBF43926 := by
  decide!

/-- The header of `empty_list` is the CRC32 of its payload. -/
theorem empty_list_well_formed : well_formed empty_list := by
  decide!

/-- Witness of C1 on one device with `userAcceptState` `NATIVE_SELECTED`. -/
theorem checksum_law_witness :
    16 ≤ corrupted_phone.length ∧
      read_be64 (build_new_blob corrupted_phone (find_issues corrupted_phone 32)) =
        some (calculate_crc32
          ((build_new_blob corrupted_phone (find_issues corrupted_phone 32)).drop 8)) :=
  ⟨by decide!, (checksum_law corrupted_phone (by decide!)).1.1⟩

/-- C2 fails as stated: in the well-formed blob of 33 corrupted devices the
sentinel occurs at least 33 times, and the output is longer by 128 bytes, not
by four times the number of occurrences. -/
theorem length_law_fails_beyond_32 :
    (repair thirty_three_devices).length - thirty_three_devices.length ≠
      4 * (occurrences thirty_three_devices).length := by
  have h := thirty_three_occurrences
  rw [repair_length]
  omega

/-- C3 fails as stated: in the blob of 33 corrupted devices the last byte, at
index 1005, is outside the header and outside every sentinel window, and the
output has no byte at index `1005 + 4 * k` for `k` the number of occurrences
below it. -/
theorem locality_fails_beyond_32 :
    (8 ≤ 1005 ∧ 1005 < thirty_three_devices.length ∧
      ∀ p ∈ occurrences thirty_three_devices, ¬ (p ≤ 1005 ∧ 1005 < p + 17)) ∧
    (repair thirty_three_devices)[1005 +
        4 * (occurrences thirty_three_devices).countP (fun p => decide (p < 1005))]? ≠
      thirty_three_devices[1005]? := by
  have hlen := thirty_three_length
  have hn := thirty_three_occurrences
  have hlow : ∀ p ∈ occurrences thirty_three_devices, p < 989 := by
    intro p hp
    have hpat := occurrences_mem.mp hp
    have hb := pattern_at_bound hpat
    rw [hlen] at hb
    by_contra hcon
    have e : p = 989 := by omega
    rw [e] at hpat
    have h981 := thirty_three_pattern 32 (by omega)
    have := pattern_at_gap h981 hpat (by omega)
    omega
  refine ⟨⟨by omega, by omega, fun p hp hh => by have := hlow p hp; omega⟩, ?_⟩
  have hc : (occurrences thirty_three_devices).countP (fun p => decide (p < 1005)) =
      (occurrences thirty_three_devices).length := by
    rw [List.countP_eq_length]
    intro p hp
    have := hlow p hp
    simp only [decide_eq_true_eq]
    omega
  have hnone : (repair thirty_three_devices)[1005 +
      4 * (occurrences thirty_three_devices).length]? = none := by
    apply List.getElem?_eq_none
    rw [repair_length, hlen]
    omega
  rw [hc, hnone, List.getElem?_eq_getElem (by omega)]
  simp

/-- Witness of C3 on one device with `userAcceptState` `NATIVE_SELECTED`: the
last input byte, at index 59, is found at index 63 of the output. -/
theorem locality_capped_witness :
    (8 ≤ 59 ∧ 59 < corrupted_phone.length ∧
      ∀ p ∈ (occurrences corrupted_phone).take 32, ¬ (p ≤ 59 ∧ 59 < p + 17)) ∧
    (repair corrupted_phone)[59 +
        4 * ((occurrences corrupted_phone).take 32).countP (fun p => decide (p < 59))]? =
      corrupted_phone[59]? :=
  ⟨⟨by decide, by decide!, by decide!⟩,
    locality_capped corrupted_phone 59 (by decide) (by decide!) (by decide!)⟩

/-- C4 fails as stated: the blob of 33 corrupted devices is well-formed, and
repairing its repaired form changes it once more. -/
theorem idempotence_fails_beyond_32 :
    well_formed thirty_three_devices ∧
      repair (repair thirty_three_devices) ≠ repair thirty_three_devices :=
  ⟨thirty_three_well_formed,
    repair_twice_of_many _ (by have := thirty_three_occurrences; omega)⟩

/-- Witness of C4 on one device with `userAcceptState` `NATIVE_SELECTED`. -/
theorem idempotence_capped_witness :
    (well_formed corrupted_phone ∧ (occurrences corrupted_phone).length ≤ 32) ∧
      repair (repair corrupted_phone) = repair corrupted_phone :=
  ⟨⟨by decide!, by decide!⟩,
    (idempotence_capped corrupted_phone (by decide!) (by decide!)).2.2⟩

/-- Witness of C5: the empty device list and the single healthy device are
left byte for byte as they are. -/
theorem round_trip_identity_witness :
    ((16 ≤ empty_list.length ∧
        read_be64 empty_list = some (calculate_crc32 (empty_list.drop 8)) ∧
        occurrences empty_list = []) ∧
      repair empty_list = empty_list ∧
      build_new_blob empty_list (find_issues empty_list 32) = empty_list) ∧
    ((16 ≤ healthy_phone.length ∧
        read_be64 healthy_phone = some (calculate_crc32 (healthy_phone.drop 8)) ∧
        occurrences healthy_phone = []) ∧
      repair healthy_phone = healthy_phone ∧
      build_new_blob healthy_phone (find_issues healthy_phone 32) = healthy_phone) :=
  ⟨⟨⟨by decide!, by decide!, by decide!⟩,
      (round_trip_identity empty_list (by decide!) (by decide!) (by decide!)).1,
      (round_trip_identity empty_list (by decide!) (by decide!) (by decide!)).2.1⟩,
    ⟨⟨by decide!, with_checksum_valid _, by decide!⟩,
      (round_trip_identity healthy_phone (by decide!) (with_checksum_valid _) (by decide!)).1,
      (round_trip_identity healthy_phone (by decide!) (with_checksum_valid _)
        (by decide!)).2.1⟩⟩

/-- Witness of C6 on one device with `userAcceptState` `NATIVE_SELECTED`. -/
theorem parser_offsets_are_scanned_witness :
    (occurrences corrupted_phone).length ≤ 32 ∧
      ∀ d ∈ (parse_device_names corrupted_phone 32).devices,
        pattern_at corrupted_phone d.position = true →
        d.position ∈ (find_issues corrupted_phone 32).map (fun x => x.position) :=
  ⟨by decide!, (parser_offsets_are_scanned corrupted_phone (by decide!)).1⟩

/-- Witness of C8 on two devices, the second cut short inside its `name`: the
parser keeps the first entry, and the run in fix mode returns 0. -/
theorem truncated_record_not_counted_witness :
    (16 ≤ second_truncated.length ∧ read_be32 second_truncated 12 = some 2 ∧ 1 < min 2 32 ∧
      records_end second_truncated 1 16 = some 60 ∧
      connection_type_offset second_truncated 60 = none) ∧
    (parse_device_names second_truncated 32).devices.length = 1 ∧
    (fix_database fix_mode (database second_truncated)).exit_code = 0 :=
  ⟨⟨by decide!, by decide!, by decide, by decide!, by decide!⟩,
    (truncated_record_not_counted second_truncated 2 1 60 (by decide!) (by decide!)
      (by decide) (by decide!) (by decide!)).2.1,
    (truncated_record_not_counted second_truncated 2 1 60 (by decide!) (by decide!)
      (by decide) (by decide!) (by decide!)).2.2.1⟩

/-- Witness of C10 on one device "Phone" with `userAcceptState`
`NATIVE_SELECTED`: the occurrence at offset 32 is reported with that name. -/
theorem name_association_witness :
    (⟨32, phone⟩ : device_issue_t) ∈ find_issues corrupted_phone 32 ∧
      pattern_at corrupted_phone 32 = true ∧
      at_issue (find_issues corrupted_phone 32) 32 = true :=
  ⟨by decide!,
    (name_association corrupted_phone ⟨32, phone⟩ (by decide!)).1,
    (name_association corrupted_phone ⟨32, phone⟩ (by decide!)).2.1⟩

/-! ## Reads outside the blob -/

theorem parse_tail_ne_overread (B name : List Byte) (o3 : Nat) :
    parse_tail B name o3 ≠ .stop true := by
  rw [parse_tail_eq]
  split <;> simp

theorem overread_at_iff (B : List Byte) (o : Nat) :
    overread_at B o = true ↔ ∃ o1, skip_string B o = some o1 ∧ B.length < o1 + 2 := by
  unfold overread_at
  cases skip_string B o with
  | none => simp
  | some o1 => simp

theorem parse_record_overread_iff (B : List Byte) (o : Nat) :
    parse_record B o = .stop true ↔ overread_at B o = true := by
  rw [parse_record_eq]
  cases ha : accept_state_offset B o with
  | none => simp
  | some o3 =>
    simp only [overread_at_of_accept ha]
    constructor
    · intro h; exact absurd h (parse_tail_ne_overread B _ o3)
    · intro h; exact absurd h (by simp)

theorem parse_loop_overread (B : List Byte) :
    ∀ n o devs, (parse_loop B n o devs).overread = true → ∃ o1, overread_at B o1 = true := by
  intro n
  induction n with
  | zero => intro o devs h; simp [parse_loop] at h
  | succ n ih =>
    intro o devs h
    rw [parse_loop] at h
    cases hp : parse_record B o with
    | stop ov =>
      rw [hp] at h
      simp only at h
      subst h
      exact ⟨o, (parse_record_overread_iff B o).mp hp⟩
    | next d o' =>
      rw [hp] at h
      exact ih o' _ h

theorem read_be32_eq_some {B : List Byte} {o : Nat} (h : o + 4 ≤ B.length) :
    ∃ v, read_be32 B o = some v := by
  unfold read_be32
  rw [List.getElem?_eq_getElem (by omega : o < B.length),
    List.getElem?_eq_getElem (by omega : o + 1 < B.length),
    List.getElem?_eq_getElem (by omega : o + 2 < B.length),
    List.getElem?_eq_getElem (by omega : o + 3 < B.length)]
  exact ⟨_, rfl⟩

/-- The one read the parser makes outside the blob is the read of the
`smartphoneType` length, right behind a `deviceUniqueId` that fits: every other
read is in range. -/
theorem parse_device_names_overread (B : List Byte) (m : Nat)
    (h : (parse_device_names B m).overread = true) :
    ∃ o o1, skip_string B o = some o1 ∧ o1 ≤ B.length ∧ B.length < o1 + 2 ∧
      read_be16 B o1 = none := by
  unfold parse_device_names at h
  by_cases h16 : B.length < 16
  · rw [if_pos h16] at h
    exact absurd h (by simp)
  · rw [if_neg h16] at h
    obtain ⟨N, hN⟩ := read_be32_eq_some (by omega : 12 + 4 ≤ B.length)
    rw [hN] at h
    simp only at h
    obtain ⟨o, ho⟩ := parse_loop_overread B _ _ _ h
    obtain ⟨o1, hs, hlt⟩ := (overread_at_iff B o).mp ho
    obtain ⟨k, _, e, hle⟩ := skip_string_some hs
    exact ⟨o, o1, hs, by omega, hlt, read_be16_eq_none hlt⟩

/-- C11 fails on the code. The blob holds one device and ends right behind
its `deviceUniqueId`: the length read at offset 16 is in range and moves the
offset to 20, the length of the blob; the test `offset > blob_len` lets that
pass, and the next read, the two length bytes of `smartphoneType` at offset 20,
is outside the blob.  The parser takes the out-of-range branch. -/
theorem parser_reads_past_end :
    cut_after_device_id.length = 20 ∧
      read_be32 cut_after_device_id 12 = some 1 ∧
      read_be16 cut_after_device_id 16 = some 2 ∧
      ¬ (16 + 2 + 2 > cut_after_device_id.length) ∧
      cut_after_device_id.length < 20 + 2 ∧
      read_be16 cut_after_device_id 20 = none ∧
      parse_record cut_after_device_id 16 = .stop true ∧
      parse_device_names cut_after_device_id 32 = ⟨[], true⟩ := by
  decide!

/-! ## Names as they are reported -/

theorem occurrences_eq_from_8 (B : List Byte) (hz : B[8]? = some 0) :
    occurrences B = occurrences_from 8 B := by
  unfold occurrences occurrences_from
  have hlow : ∀ a ∈ List.range' 0 (min 8 (B.length + 1 - PATTERN_NATIVE_LEN)),
      ¬ (pattern_at B a = true) := by
    intro a ha
    rw [List.mem_range'_1] at ha
    rw [pattern_at_false_of_zero hz (by omega) (by omega)]
    simp
  have hsplit : List.range' 0 (B.length + 1 - PATTERN_NATIVE_LEN - 0) =
      List.range' 0 (min 8 (B.length + 1 - PATTERN_NATIVE_LEN)) ++
        List.range' 8 (B.length + 1 - PATTERN_NATIVE_LEN - 8) := by
    by_cases h : 8 ≤ B.length + 1 - PATTERN_NATIVE_LEN
    · rw [Nat.min_eq_left h]
      have := List.range'_append_1 0 8 (B.length + 1 - PATTERN_NATIVE_LEN - 8)
      rw [Nat.zero_add] at this
      rw [this]
      congr 1
      omega
    · have e1 : min 8 (B.length + 1 - PATTERN_NATIVE_LEN) = B.length + 1 - PATTERN_NATIVE_LEN := by
        omega
      have e2 : B.length + 1 - PATTERN_NATIVE_LEN - 8 = 0 := by omega
      rw [e1, e2]
      simp
  rw [hsplit, List.filter_append, List.filter_eq_nil_iff.mpr hlow, List.nil_append]

/-- C10 fails as stated. Two well-formed blobs, each one device with
`userAcceptState` `NATIVE_SELECTED`. In the first the `name` field holds the
three bytes `41 00 42`, and the name reported for the occurrence at its
`userAcceptState` offset 30 is the one byte `41`. In the second the `name` field
holds 300 bytes, and the name reported for the occurrence at offset 327 holds
the first 255 of them. -/
theorem reported_name_is_cut :
    (well_formed nul_named ∧
      has_name_offset nul_named 16 = some 24 ∧ nul_named[24]? = some 1 ∧
      read_be16 nul_named 25 = some 3 ∧
      (nul_named.drop 27).take 3 = [0x41, 0x00, 0x42] ∧
      accept_state_offset nul_named 16 = some 30 ∧
      parse_device_names nul_named 32 = ⟨[⟨30, [0x41]⟩], false⟩ ∧
      find_issues nul_named 32 = [⟨30, [0x41]⟩]) ∧
    (well_formed long_named ∧
      has_name_offset long_named 16 = some 24 ∧ long_named[24]? = some 1 ∧
      read_be16 long_named 25 = some 300 ∧
      (long_named.drop 27).take 300 = List.replicate 300 0x61 ∧
      accept_state_offset long_named 16 = some 327 ∧
      parse_device_names long_named 32 = ⟨[⟨327, List.replicate 255 0x61⟩], false⟩ ∧
      find_issues long_named 32 = [⟨327, List.replicate 255 0x61⟩]) := by
  have hparse : parse_device_names long_named 32 =
      ⟨[⟨327, List.replicate 255 0x61⟩], false⟩ := by decide!
  have hfind : find_issues long_named 32 = [⟨327, List.replicate 255 0x61⟩] := by
    have hocc : occurrences_from 8 long_named = [327] := by decide!
    rw [find_issues_eq, occurrences_eq_from_8 long_named (by decide!), hocc, hparse]
    decide!
  exact ⟨⟨⟨by decide!, with_checksum_valid _, by decide!, by decide!⟩, by decide!, by decide!,
      by decide!, by decide!, by decide!, by decide!, by decide!⟩,
    ⟨⟨by decide!, with_checksum_valid _, by decide!, by decide!⟩, by decide!, by decide!,
      by decide!, by decide!, by decide!, hparse, hfind⟩⟩

end Partition1008
